import Mathlib

set_option maxRecDepth 100000

/-!
Verification of the epic-mickey-lib byte codecs.

We shallowly embed the Rust sources (`file_manipulator.rs`, `dct.rs`,
`packfile.rs`, `scene_file.rs`) into Lean.  Bytes are modelled as `Nat`
(every value produced by the embedded writers is `< 256`; reads never
depend on an upper bound), buffers as `List Nat`, and Rust `String`s as
their byte lists (`List Nat`); for the ASCII strings appearing in this
development the Rust byte length and char iteration coincide with the
byte-list view.  Machine-integer truncation (`as u8`, `as u32`) is kept
via explicit `% 256` / byte extraction; fallible code (Rust panics:
out-of-range reads, failed `unwrap`, bad magic) is modelled with
`Option`.
-/

namespace EM

/-- UTF-8 bytes of an ASCII string literal (used only for ASCII data). -/
def s2b (s : String) : List Nat := s.data.map Char.toNat

/-- Big-endian byte serialisation of `v` at a fixed `width`
(mirrors Rust `to_be_bytes` after truncation to the machine width). -/
def bytesBE : Nat → Nat → List Nat
  | 0, _ => []
  | w + 1, v => bytesBE w (v / 256) ++ [v % 256]

/-- `u32::to_be_bytes`. -/
def u32be (v : Nat) : List Nat := bytesBE 4 v

/-- `u32::to_le_bytes`. -/
def u32le (v : Nat) : List Nat := (bytesBE 4 v).reverse

/-- Big-endian reassembly of a byte list (`from_be_bytes`). -/
def beNat (bs : List Nat) : Nat := bs.foldl (fun acc b => acc * 256 + b) 0

/-- Little-endian reassembly of a byte list (`from_le_bytes`). -/
def leNat (bs : List Nat) : Nat := bs.foldr (fun b acc => b + 256 * acc) 0

/-- `EndianType` from `file_manipulator.rs`. -/
inductive EndianType
  | BIG
  | LITTLE
deriving DecidableEq, Repr

/-- `WriteMode` from `file_manipulator.rs`. -/
inductive WriteMode
  | OVERWRITE
  | INSERT
deriving DecidableEq, Repr

/-- The `FileManipulator` state: an endianness, a write mode, the byte
buffer and the cursor position.  (`0 ≤ pos ≤ data.length` holds for every
state reachable through the API; `move_pos` enforces it in the source.) -/
structure FM where
  endian : EndianType
  mode : WriteMode
  data : List Nat
  pos : Nat
deriving DecidableEq, Repr

namespace FM

/-- Zero-extend a buffer to length `n` (no-op when already at least that
long); the `for _ in 0..padding { data.push(0) }` idiom of the source. -/
def padTo (d : List Nat) (n : Nat) : List Nat := d ++ List.replicate (n - d.length) 0

/-- `FileManipulator::write`.  Overwrite mode zero-extends to
`pos + buffer.len()` and then overwrites in place; insert mode splices at
the cursor.  The final `move_pos` always succeeds here because the new
position is at most the new length. -/
def write (fm : FM) (bs : List Nat) : FM :=
  match fm.mode with
  | .OVERWRITE =>
      let d := padTo fm.data (fm.pos + bs.length)
      { fm with data := d.take fm.pos ++ bs ++ d.drop (fm.pos + bs.length),
                pos := fm.pos + bs.length }
  | .INSERT =>
      { fm with data := fm.data.take fm.pos ++ bs ++ fm.data.drop fm.pos,
                pos := fm.pos + bs.length }

/-- `FileManipulator::write_byte`: pushes at the END of the buffer (not at
the cursor) and advances the position by one. -/
def writeByte (fm : FM) (b : Nat) : FM :=
  { fm with data := fm.data ++ [b], pos := fm.pos + 1 }

/-- `FileManipulator::seek`: zero-extends when seeking past the end. -/
def seek (fm : FM) (p : Nat) : FM :=
  { fm with data := padTo fm.data p, pos := p }

/-- `FileManipulator::tell`. -/
def tell (fm : FM) : Nat := fm.pos

/-- `FileManipulator::size` / `get_size`. -/
def size (fm : FM) : Nat := fm.data.length

/-- `FileManipulator::move_pos`; fails (source: panic) when the resulting
position is negative or beyond the end. -/
def movePos (fm : FM) (amount : Int) : Option FM :=
  let np : Int := (fm.pos : Int) + amount
  if 0 ≤ np ∧ np ≤ (fm.data.length : Int) then some { fm with pos := np.toNat } else none

/-- `FileManipulator::align` — moves the cursor forward to the next
multiple of `num` without writing (via `move_pos`). -/
def align (fm : FM) (num : Nat) : Option FM :=
  if fm.pos % num ≠ 0 then fm.movePos ((num - fm.pos % num : Nat) : Int) else some fm

/-- `FileManipulator::pad` — writes `amount - pos % amount` zero bytes
one at a time through `write_byte`. -/
def pad (fm : FM) (amount : Nat) : FM :=
  (List.replicate (amount - fm.pos % amount) 0).foldl (fun f b => f.writeByte b) fm

/-- `w_u8` (`data.to_?e_bytes` of a `u8` is one byte either way; the `%
256` mirrors the `u8` width, relevant where the source casts `as u8`). -/
def wU8 (fm : FM) (v : Nat) : FM := fm.write [v % 256]

/-- `w_u16`. -/
def wU16 (fm : FM) (v : Nat) : FM :=
  fm.write (match fm.endian with
    | .BIG => bytesBE 2 v
    | .LITTLE => (bytesBE 2 v).reverse)

/-- `w_u32`. -/
def wU32 (fm : FM) (v : Nat) : FM :=
  fm.write (match fm.endian with
    | .BIG => u32be v
    | .LITTLE => u32le v)

/-- `w_u128`. -/
def wU128 (fm : FM) (v : Nat) : FM :=
  fm.write (match fm.endian with
    | .BIG => bytesBE 16 v
    | .LITTLE => (bytesBE 16 v).reverse)

/-- `w_u16_jps`: the 2-byte integer followed by two filler bytes written
through `write_byte`; filler `0xCD` for mode 0, `0xFF` for mode 1
(any other mode panics in the source). -/
def wU16jps (fm : FM) (v : Nat) (mode : Nat) : Option FM :=
  let fm1 := fm.wU16 v
  match mode with
  | 0 => some ((fm1.writeByte 0xCD).writeByte 0xCD)
  | 1 => some ((fm1.writeByte 0xFF).writeByte 0xFF)
  | _ => none

/-- `w_str`: raw bytes of the string. -/
def wStr (fm : FM) (s : List Nat) : FM := fm.write s

/-- `w_str_null`: the bytes then a single NUL through `write_byte`. -/
def wStrNull (fm : FM) (s : List Nat) : FM := (fm.write s).writeByte 0

/-- `w_str_jps`: `text_length = len + 1` if nonempty else `0`; `size` is
`text_length + 2` rounded up to a multiple of 4; after the framed text,
`size - text_length - 2` zero bytes (one zero byte when the text is
empty).  The `while (size % 4) != 0 { size += 1 }` loop is the round-up
written below. -/
def jpsTextLength (s : List Nat) : Nat := if s.length > 0 then s.length + 1 else 0

def roundUp4 (n : Nat) : Nat := if n % 4 = 0 then n else n + (4 - n % 4)

def jpsSize (s : List Nat) : Nat := roundUp4 (jpsTextLength s + 2)

def wStrJps (fm : FM) (s : List Nat) : FM :=
  let tl := jpsTextLength s
  let sz := jpsSize s
  let fm1 := ((fm.wU8 sz).wU8 tl).wStrNull s
  let padding := if tl > 0 then sz - tl - 2 else 1
  (List.replicate padding 0).foldl (fun f b => f.writeByte b) fm1

/-- `w_bool`: four `0xFF` bytes for true, four zeros for false, written
through `write_byte`. -/
def wBool (fm : FM) (v : Bool) : FM :=
  (List.replicate 4 (if v then 255 else 0)).foldl (fun f b => f.writeByte b) fm

/-- `read_byte`; fails (source: index panic) past the end. -/
def readByte? (fm : FM) : Option (Nat × FM) :=
  if h : fm.pos < fm.data.length then
    some (fm.data.get ⟨fm.pos, h⟩, { fm with pos := fm.pos + 1 })
  else none

/-- `read` into a buffer of length `n`; fails when fewer than `n` bytes
remain. -/
def readBytes? (fm : FM) (n : Nat) : Option (List Nat × FM) :=
  if fm.pos + n ≤ fm.data.length then
    some ((fm.data.drop fm.pos).take n, { fm with pos := fm.pos + n })
  else none

/-- `r_u8`. -/
def rU8? (fm : FM) : Option (Nat × FM) := fm.readByte?

/-- `r_u32` (endian-aware reassembly of 4 bytes). -/
def rU32? (fm : FM) : Option (Nat × FM) := do
  let (bs, fm1) ← fm.readBytes? 4
  pure ((match fm.endian with | .BIG => beNat bs | .LITTLE => leNat bs), fm1)

/-- `r_u128`. -/
def rU128? (fm : FM) : Option (Nat × FM) := do
  let (bs, fm1) ← fm.readBytes? 16
  pure ((match fm.endian with | .BIG => beNat bs | .LITTLE => leNat bs), fm1)

/-- `r_str` of a given length (the source additionally validates UTF-8;
the byte-list model returns the raw bytes, which agree on the valid
inputs considered here). -/
def rStr? (fm : FM) (n : Nat) : Option (List Nat × FM) := fm.readBytes? n

/-- The byte-at-a-time loop of `r_str_null`, expressed structurally on
the remaining bytes: the text before the first NUL and the number of
bytes consumed (text plus the NUL); `none` when the buffer ends first
(source: index panic). -/
def takeUntilNul : List Nat → Option (List Nat × Nat)
  | [] => none
  | b :: rest =>
      if b = 0 then some ([], 1)
      else (takeUntilNul rest).map (fun p => (b :: p.1, p.2 + 1))

/-- `r_str_null`: bytes up to (excluding) the first NUL; fails when the
buffer ends before a NUL is found. -/
def rStrNull? (fm : FM) : Option (List Nat × FM) :=
  (takeUntilNul (fm.data.drop fm.pos)).map (fun p => (p.1, { fm with pos := fm.pos + p.2 }))

/-- `r_bool`: reads 4 bytes, true exactly for `FF FF FF FF`. -/
def rBool? (fm : FM) : Option (Bool × FM) := do
  let (bs, fm1) ← fm.readBytes? 4
  pure (bs = [255, 255, 255, 255], fm1)

/-- `r_u16` / `r_s16` raw value (2 bytes, endian-aware). -/
def rU16? (fm : FM) : Option (Nat × FM) := do
  let (bs, fm1) ← fm.readBytes? 2
  pure ((match fm.endian with | .BIG => beNat bs | .LITTLE => leNat bs), fm1)

/-- `r_u16_jps` / `r_s16_jps`: the 2-byte value then `move_pos(2)` over
the filler. -/
def rU16jps? (fm : FM) : Option (Nat × FM) := do
  let (v, fm1) ← fm.rU16?
  let fm2 ← fm1.movePos 2
  pure (v, fm2)

/-- `r_float` modelled as its raw 4 bytes in big-endian order (the codecs
treat floats opaquely at the byte level). -/
def rF32? (fm : FM) : Option (List Nat × FM) := do
  let (bs, fm1) ← fm.readBytes? 4
  pure ((match fm.endian with | .BIG => bs | .LITTLE => bs.reverse), fm1)

/-- `w_float` for the same raw representation. -/
def wF32 (fm : FM) (bits : List Nat) : FM :=
  fm.write (match fm.endian with | .BIG => bits | .LITTLE => bits.reverse)

/-- `r_str_jps`: size byte, text-length byte, NUL-terminated text, then
4-byte alignment. -/
def rStrJps? (fm : FM) : Option (List Nat × FM) := do
  let (_, fm1) ← fm.rU8?
  let (_, fm2) ← fm1.rU8?
  let (s, fm3) ← fm2.rStrNull?
  let fm4 ← fm3.align 4
  pure (s, fm4)

end FM

/-! ## `ID` (`scene_file.rs`)

Rust `ID` wraps a `u128`; the string projections work on ASCII hex
characters, modelled as byte lists.  `'0' = 48`, `',' = 44`,
`'A'..'F' = 65..70`, `'a'..'f' = 97..102`. -/

/-- Uppercase hex digit character (byte) of a value `< 16`. -/
def hexUpperDigit (v : Nat) : Nat := if v < 10 then 48 + v else 55 + v

/-- Digit-extraction loop with explicit fuel (at least the value
itself, so the fuel never runs out; `n / 16` strictly decreases). -/
def toHexUpperGo : Nat → Nat → List Nat
  | 0, _ => []
  | fuel + 1, n => if n = 0 then [] else toHexUpperGo fuel (n / 16) ++ [hexUpperDigit (n % 16)]

/-- Minimal-length uppercase hex rendering (empty for 0), msd first;
the core of Rust `format!("{:X}", id)`. -/
def toHexUpperCore (n : Nat) : List Nat := toHexUpperGo n n

/-- `format!("{:X}", n)` (renders 0 as "0"). -/
def toHexUpper (n : Nat) : List Nat := if n = 0 then [48] else toHexUpperCore n

/-- ASCII lowercasing of one byte (`str::to_lowercase` on ASCII data). -/
def toLowerByte (b : Nat) : Nat := if 65 ≤ b ∧ b ≤ 90 then b + 32 else b

namespace ID

/-- `ID::to_string`: pad the hex form with leading zeros to
`num_bytes * 2` characters, split into `num_bytes` two-character groups
joined by commas, and lowercase the result. -/
def toString (id : Nat) (numBytes : Nat) : List Nat :=
  let hex0 := toHexUpper id
  let hex := List.replicate (numBytes * 2 - hex0.length) 48 ++ hex0
  let parts := (List.range numBytes).map (fun i => (hex.drop (2 * i)).take 2)
  (List.intercalate [44] parts).map toLowerByte

/-- `ID::to_string_no_leaders`: strip one leading `'0'` from each
comma-separated group.  (The source reads `part.chars().nth(0).unwrap()`;
the groups produced by `to_string` are never empty.) -/
def toStringNoLeaders (id : Nat) (numBytes : Nat) : List Nat :=
  let parts := (toString id numBytes).splitOn 44
  List.intercalate [44] (parts.map (fun p => if p.head? = some 48 then p.tail else p))

/-- One hex character's value; `u128::from_str_radix` accepts both
cases. -/
def parseHexDigit? (b : Nat) : Option Nat :=
  if 48 ≤ b ∧ b ≤ 57 then some (b - 48)
  else if 97 ≤ b ∧ b ≤ 102 then some (b - 87)
  else if 65 ≤ b ∧ b ≤ 70 then some (b - 55)
  else none

/-- One step of the hex-parse fold. -/
def parseHexF (acc : Option Nat) (b : Nat) : Option Nat := do
  let a ← acc
  let d ← parseHexDigit? b
  pure (a * 16 + d)

/-- Hex parse of a byte list (value accumulated left to right). -/
def parseHex? (bs : List Nat) : Option Nat := bs.foldl parseHexF (some 0)

/-- `ID::from_string`: left-pad each comma group with `'0'` to two
characters, concatenate and parse as hex.  `from_str_radix(..).unwrap()`
panics on an empty string, a non-hex character, or `u128` overflow. -/
def fromString (s : List Nat) : Option Nat :=
  let parts := s.splitOn 44
  let hex := (parts.map (fun p => List.replicate (2 - p.length) 48 ++ p)).flatten
  match parseHex? hex with
  | some v => if hex ≠ [] ∧ v < 2 ^ 128 then some v else none
  | none => none

/-- `ID::to_u32`: fails (source: panic) when the value exceeds
`u32::MAX`. -/
def toU32 (id : Nat) : Option Nat := if id > 2 ^ 32 - 1 then none else some id

end ID

/-- Fixed-width big-endian hex digit expansion (proof-side view of the
zero-padded hex string). -/
def hexFixed : Nat → Nat → List Nat
  | 0, _ => []
  | w + 1, n => hexFixed w (n / 16) ++ [hexUpperDigit (n % 16)]

/-- The two-digit byte groups of the fixed-width hex string. -/
def hexPairs : Nat → Nat → List (List Nat)
  | 0, _ => []
  | k + 1, n => hexPairs k (n / 256) ++ [[hexUpperDigit (n / 16 % 16), hexUpperDigit (n % 16)]]

/-! ## DCT codec (`dct.rs`)

The DCT file is always little-endian.  Texts are the UTF-8 bytes of the
Rust `String`s. -/

/-- `DialogEntry`. -/
structure DialogEntry where
  hashedKey : Nat
  text : List Nat
deriving DecidableEq, Repr

/-- `FooterEntry`. -/
structure FooterEntry where
  number : Nat
  text : List Nat
deriving DecidableEq, Repr

/-- `DCT`. -/
structure DCT where
  magic : List Nat
  version1 : Nat
  hashSeed : Nat
  version2 : Nat
  dialogEntries : List DialogEntry
  footerEntries : List FooterEntry
deriving DecidableEq, Repr

namespace DCT

/-- `(num_dialog_entries * 12) + (num_footer_entries * 8) - 1` in
wrapping `u32` arithmetic (release semantics; with no entries at all the
subtraction wraps to `0xFFFFFFFF`). -/
def endOffset (d : DCT) : Nat :=
  ((d.dialogEntries.length * 12 + d.footerEntries.length * 8) % 2 ^ 32 + 2 ^ 32 - 1) % 2 ^ 32

/-- The dialog-entry loop of `DCT::pack`.  State: the cursor,
`current_data_offset` and `current_line_offset`.  A zero hashed key
writes three zero `u32`s; otherwise the record is written, the text is
appended at `current_line_offset` and the cursor returns to the record
region.  (`current_line_offset - fm.tell() - 1` never underflows in a
reachable state: the line offset is always beyond the record region.) -/
def packDialogLoop : List DialogEntry → FM → Nat → Nat → (FM × Nat × Nat)
  | [], fm, cdo, clo => (fm, cdo, clo)
  | e :: rest, fm, cdo, clo =>
      let fm0 := fm.seek cdo
      if e.hashedKey = 0 then
        let fm1 := ((fm0.wU32 0).wU32 0).wU32 0
        packDialogLoop rest fm1 fm1.pos clo
      else
        let fm1 := fm0.wU32 e.hashedKey
        let fm2 := fm1.wU32 (clo - fm1.pos - 1)
        let fm3 := fm2.wU32 0
        let fm4 := fm3.seek clo
        let fm5 := fm4.wStrNull e.text
        let fm6 := fm5.seek fm3.pos
        packDialogLoop rest fm6 fm3.pos fm5.pos

/-- The footer-entry loop of `DCT::pack`. -/
def packFooterLoop : List FooterEntry → FM → Nat → FM
  | [], fm, _ => fm
  | e :: rest, fm, clo =>
      let fm1 := fm.wU32 (clo - fm.pos - 1)
      let fm2 := fm1.wU32 e.number
      let fm3 := fm2.seek clo
      let fm4 := fm3.wStrNull e.text
      let fm5 := fm4.seek fm2.pos
      packFooterLoop rest fm5 fm4.pos

/-- `DCT::pack`. -/
def pack (d : DCT) : List Nat :=
  let fm : FM := ⟨.LITTLE, .OVERWRITE, [], 0⟩
  let eOff := d.endOffset
  let fm := fm.wStr d.magic
  let fm := fm.wU32 d.version1
  let fm := fm.wU32 d.hashSeed
  let fm := fm.wU32 d.version2
  let fm := fm.wU32 d.dialogEntries.length
  let fm := fm.wU32 1
  let fm := fm.wU32 eOff
  let fm := fm.wU32 (if d.footerEntries.length > 0 then 1 else 0)
  let st := packDialogLoop d.dialogEntries fm fm.pos (eOff + 50)
  let fm :=
    if d.footerEntries.length > 0 then
      let fm2 := packFooterLoop d.footerEntries st.1 st.2.2
      (((fm2.write [0xDF, 0xFF, 0xFF, 0xFF]).wU32 11).wU32 12).wU32 0
    else st.1
  fm.data

/-- The dialog-entry loop of `DCT::unpack`; a zero hashed key skips the
remaining 8 record bytes without dereferencing the offset field. -/
def unpackDialogLoop : Nat → FM → Option (List DialogEntry × FM)
  | 0, fm => some ([], fm)
  | n + 1, fm => do
      let (key, fm1) ← fm.rU32?
      if key = 0 then
        let fm2 ← fm1.movePos 8
        let (rest, fm3) ← unpackDialogLoop n fm2
        pure (⟨0, []⟩ :: rest, fm3)
      else
        let (off, fm2) ← fm1.rU32?
        let lineOffset := fm1.pos + off + 1
        let (_, fm3) ← fm2.rU32?
        let fm4 := fm3.seek lineOffset
        let (text, fm5) ← fm4.rStrNull?
        let fm6 := fm5.seek fm3.pos
        let (rest, fm7) ← unpackDialogLoop n fm6
        pure (⟨key, text⟩ :: rest, fm7)

/-- The footer loop of `DCT::unpack` (`while fm.tell() < footer_offset`),
with explicit fuel; the caller passes fuel at least the loop bound so
running out of fuel only models divergence. -/
def unpackFooterLoop : Nat → Nat → FM → Option (List FooterEntry × FM)
  | 0, fo, fm => if fm.pos < fo then none else some ([], fm)
  | fuel + 1, fo, fm =>
      if fm.pos < fo then do
        let (off, fm1) ← fm.rU32?
        let lineOffset := fm.pos + off + 1
        let (num, fm2) ← fm1.rU32?
        let fm3 := fm2.seek lineOffset
        let (text, fm4) ← fm3.rStrNull?
        let fm5 := fm4.seek fm2.pos
        let (rest, fm6) ← unpackFooterLoop fuel fo fm5
        pure (⟨num, text⟩ :: rest, fm6)
      else some ([], fm)

/-- `DCT::unpack`. -/
def unpack (fm0 : FM) : Option (DCT × FM) := do
  let (magic, fm1) ← fm0.rStr? 4
  let (v1, fm2) ← fm1.rU32?
  let (seed, fm3) ← fm2.rU32?
  let (v2, fm4) ← fm3.rU32?
  let (numDialog, fm5) ← fm4.rU32?
  let fm6 ← fm5.movePos 4
  let (rel, fm7) ← fm6.rU32?
  let footerOffset := fm6.pos + rel + 9
  let (fswitch, fm8) ← fm7.rU32?
  let (dialog, fm9) ← unpackDialogLoop numDialog fm8
  let (footer, fm10) ←
    if fswitch = 1 then unpackFooterLoop (footerOffset + 1) footerOffset fm9
    else pure ([], fm9)
  pure (⟨magic, v1, seed, v2, dialog, footer⟩, fm10)

/-- `DCT::from_binary` (always little endian). -/
def fromBinary (data : List Nat) : Option DCT :=
  (unpack ⟨.LITTLE, .OVERWRITE, data, 0⟩).map (·.1)

end DCT

/-! ## Packfile codec (`packfile.rs`)

Zlib compression lives in the external `flate2` crate; the embedding
takes it as an explicit function argument `zlib : Nat → List Nat → List
Nat` (level, bytes).  Every entry used concretely below has
`compress = false`, so no theorem depends on the argument. -/

/-- `EndianDependentString::pack`: pad with NULs to 4 bytes, reverse iff
little-endian. -/
def edsPack (text : List Nat) (endian : EndianType) : List Nat :=
  let padded := text ++ List.replicate (4 - text.length) 0
  match endian with
  | .BIG => padded
  | .LITTLE => padded.reverse

/-- `VirtualFile`. -/
structure VirtualFile where
  typeTag : List Nat
  compress : Bool
  compressionLevel : Nat
  path : List Nat
  data : List Nat
deriving DecidableEq, Repr

namespace VirtualFile

/-- `VirtualFile::get_split_path`: `(directory, file_name)` split on the
last `'/'` (47). -/
def splitPath (vf : VirtualFile) : List Nat × List Nat :=
  let parts := vf.path.splitOn 47
  (List.intercalate [47] parts.dropLast, parts.getLast?.getD [])

/-- `VirtualFile::get_compressed_data` with the external zlib encoder
passed in. -/
def compressedData (zlib : Nat → List Nat → List Nat) (vf : VirtualFile) : List Nat :=
  if vf.compress then zlib vf.compressionLevel vf.data else vf.data

/-- `VirtualFile::get_assembled_data`: compressed payload zero-padded to
a multiple of 32 (the `while fm.size() % 32 != 0` loop). -/
def assembledData (zlib : Nat → List Nat → List Nat) (vf : VirtualFile) : List Nat :=
  let c := vf.compressedData zlib
  c ++ List.replicate ((32 - c.length % 32) % 32) 0

end VirtualFile

/-- `Packfile`. -/
structure Packfile where
  magic : List Nat
  version : Nat
  files : List VirtualFile
deriving DecidableEq, Repr

namespace Packfile

/-- One step of the path-partition construction in `Packfile::pack`: the
folder name, then the file name, each appended to the pool (and recorded
at the pool offset current at insertion time) only when not yet present
in its per-role dedup table. -/
def buildPathPartition :
    List VirtualFile → FM → List (List Nat × Nat) → List (List Nat × Nat) →
      FM × List (List Nat × Nat) × List (List Nat × Nat)
  | [], fm, fo, fi => (fm, fo, fi)
  | vf :: rest, fm, fo, fi =>
      let sp := vf.splitPath
      let st1 :=
        if (fo.lookup sp.1).isNone then (fm.wStrNull sp.1, fo ++ [(sp.1, fm.size)])
        else (fm, fo)
      let st2 :=
        if (fi.lookup sp.2).isNone then (st1.1.wStrNull sp.2, fi ++ [(sp.2, st1.1.size)])
        else (st1.1, fi)
      buildPathPartition rest st2.1 st1.2 st2.2

/-- `while data_pointer % 32 != 0 { data_pointer += 1 }`. -/
def alignUp32 (n : Nat) : Nat := if n % 32 = 0 then n else n + (32 - n % 32)

/-- The per-file 24-byte record loop of `Packfile::pack`; the pointer
lookups mirror the source's `.unwrap()` (they always succeed because the
partition pass inserted every folder and file name). -/
def packRecords (zlib : Nat → List Nat → List Nat) (endian : EndianType)
    (fo fi : List (List Nat × Nat)) :
    List VirtualFile → FM → Option FM
  | [], fm => some fm
  | vf :: rest, fm => do
      let sp := vf.splitPath
      let folderPtr ← fo.lookup sp.1
      let filePtr ← fi.lookup sp.2
      let fm1 := fm.wU32 vf.data.length
      let fm2 := fm1.wU32 (vf.compressedData zlib).length
      let fm3 := fm2.wU32 (vf.assembledData zlib).length
      let fm4 := fm3.wU32 folderPtr
      let fm5 := fm4.write (edsPack vf.typeTag endian)
      let fm6 := fm5.wU32 filePtr
      packRecords zlib endian fo fi rest fm6

/-- `Packfile::pack`. -/
def pack (zlib : Nat → List Nat → List Nat) (p : Packfile) (endian : EndianType) :
    Option (List Nat) := do
  let fm : FM := ⟨endian, .OVERWRITE, [], 0⟩
  let fm := fm.write (edsPack p.magic endian)
  let fm := fm.wU32 p.version
  let fm := fm.wU32 0
  let fm := fm.wU32 32
  let pp := buildPathPartition p.files ⟨.LITTLE, .OVERWRITE, [], 0⟩ [] []
  let dataPointer := alignUp32 (32 + pp.1.size + p.files.length * 24 + 4)
  let fm := fm.wU32 (dataPointer - 32)
  let fm := fm.seek 32
  let fm := fm.wU32 p.files.length
  let fm ← packRecords zlib endian pp.2.1 pp.2.2 p.files fm
  let fm := fm.write pp.1.data
  let fm := fm.seek dataPointer
  let fm := fm.write (List.replicate ((32 - fm.size % 32) % 32) 0)
  let fm := p.files.foldl (fun f vf => f.write (vf.assembledData zlib)) fm
  pure fm.data

/-- Specification-level view of the path partition built by
`Packfile::pack`: the pool entries in insertion order tagged with their
role (`true` = folder, `false` = file name), given the strings already
recorded per role.  `buildPathPartition` is proved to emit exactly these
entries (NUL-terminated, concatenated). -/
def poolEntries : List VirtualFile → List (List Nat) → List (List Nat) → List (Bool × List Nat)
  | [], _, _ => []
  | vf :: rest, fseen, nseen =>
      (if vf.splitPath.1 ∈ fseen then [] else [(true, vf.splitPath.1)])
        ++ (if vf.splitPath.2 ∈ nseen then [] else [(false, vf.splitPath.2)])
        ++ poolEntries rest
            (if vf.splitPath.1 ∈ fseen then fseen else fseen ++ [vf.splitPath.1])
            (if vf.splitPath.2 ∈ nseen then nseen else nseen ++ [vf.splitPath.2])

/-- The endian autodetection at the head of `Packfile::from_binary`:
`"PAK "` selects little endian, `" KAP"` big endian; any other prefix
(or fewer than 4 bytes, which makes the slice `data[0..4]` panic) fails. -/
def detectEndian (data : List Nat) : Option EndianType :=
  if data.length < 4 then none
  else if data.take 4 = s2b "PAK " then some .LITTLE
  else if data.take 4 = s2b " KAP" then some .BIG
  else none

end Packfile

/-! ## Scene codec (`scene_file.rs`)

`serde_json::Value` is modelled by `JVal`.  JSON numbers originating
from floats carry the raw big-endian `f32` bytes (`jf`); the codecs
produce and consume only such numbers for float data, and `f32 → f64 →
f32` is exact, so the in-memory projection round-trips exactly as in the
source.  Integer-valued JSON numbers are `ji`. -/

inductive JVal
  | jnull
  | jb (b : Bool)
  | ji (v : Int)
  | jf (bits : List Nat)
  | js (s : List Nat)
  | ja (xs : List JVal)
  | jo (fields : List (List Nat × JVal))

namespace JVal

/-- `dict.get(key)` on a serde map (None on a non-object). -/
def jGet (v : JVal) (key : List Nat) : Option JVal :=
  match v with
  | .jo fields => fields.lookup key
  | _ => none

/-- `dict[key]` (missing keys give `Null`). -/
def jIndex (v : JVal) (key : List Nat) : JVal := (v.jGet key).getD .jnull

/-- `as_str().unwrap()`. -/
def asStr? : JVal → Option (List Nat)
  | .js s => some s
  | _ => none

/-- `as_bool().unwrap()`. -/
def asBool? : JVal → Option Bool
  | .jb b => some b
  | _ => none

/-- `as_i64().unwrap()` (the codec stores only integral numbers here). -/
def asI64? : JVal → Option Int
  | .ji v => some v
  | _ => none

/-- `as_u64().unwrap()`. -/
def asU64? : JVal → Option Nat
  | .ji v => if 0 ≤ v then some v.toNat else none
  | _ => none

/-- `as_f64().unwrap()` for the float-backed numbers of these codecs. -/
def asF32bits? : JVal → Option (List Nat)
  | .jf bits => some bits
  | _ => none

/-- `as_array().unwrap()`. -/
def asArr? : JVal → Option (List JVal)
  | .ja xs => some xs
  | _ => none

/-- `is_array()`. -/
def isArr : JVal → Bool
  | .ja _ => true
  | _ => false

end JVal

/-- Two's-complement truncation of an `Int` to `w` bits (the `as i32` /
`as i16` casts ahead of the byte writers). -/
def intToU (w : Nat) (v : Int) : Nat := (v % ((2 : Int) ^ w)).toNat

/-- Signed reinterpretation of a `w`-bit value (Rust reads of `i16`/
`i32`). -/
def uToInt (w : Nat) (v : Nat) : Int := if v < 2 ^ (w - 1) then (v : Int) else (v : Int) - 2 ^ w

/-- `f32` bytes in the byte order of the given endianness (`pack` of the
float-backed structs; the bits are stored big-endian first). -/
def f32b (e : EndianType) (bits : List Nat) : List Nat :=
  match e with
  | .BIG => bits
  | .LITTLE => bits.reverse

/-- `SceneFileVersion`. -/
inductive SceneFileVersion
  | Version1
  | Version2Prototype
  | Version2
deriving DecidableEq, Repr

/-- Whether a version takes the V2-family branches
(`Version2Prototype | Version2` in the source's `match`es). -/
def SceneFileVersion.isV2 : SceneFileVersion → Bool
  | .Version1 => false
  | _ => true

/-- `Property` (the `value` is a raw `serde_json::Value` in the source). -/
structure Property where
  className : List Nat
  name : List Nat
  asset : Bool
  palette : Bool
  template : Bool
  value : JVal

/-- `Component` (`template_id`, `link_id`, `master_link_id` wrap `u128`
`ID`s). -/
structure Component where
  className : List Nat
  name : List Nat
  templateId : Nat
  linkId : Nat
  masterLinkId : Nat
  properties : List Property

/-- `Entity`. -/
structure Entity where
  className : List Nat
  name : List Nat
  linkId : Nat
  masterLinkId : Nat
  unknown : Nat
  unknownEm2 : Nat
  components : List Component

/-- `SceneFile`. -/
structure SceneFile where
  objects : List Entity
  scene : List Nat
  em2ExtraStrings : List (List Nat)
  uniqueId : Nat
  version : SceneFileVersion

namespace Property

/-- `Property::read_value_for_type`, dispatching on the value-type name
exactly as the source's `match`; unknown names fail (source: panic). -/
def readValueForType (fm : FM) (valueType : List Nat) : Option (JVal × FM) :=
  if valueType = s2b "Boolean" then do
    let (v, fm1) ← fm.rBool?
    pure (.jb v, fm1)
  else if valueType = s2b "Integer" then do
    let (v, fm1) ← fm.rU32?
    pure (.ji (uToInt 32 v), fm1)
  else if valueType = s2b "Unsigned Integer" then do
    let (v, fm1) ← fm.rU32?
    pure (.ji v, fm1)
  else if valueType = s2b "Short" then do
    let (v, fm1) ← fm.rU16jps?
    pure (.ji (uToInt 16 v), fm1)
  else if valueType = s2b "Unsigned Short" then do
    let (v, fm1) ← fm.rU16jps?
    pure (.ji v, fm1)
  else if valueType = s2b "Float" then do
    let (bits, fm1) ← fm.rF32?
    pure (.jf bits, fm1)
  else if valueType = s2b "String" then do
    let (ptr, fm1) ← fm.rU32?
    let pos := fm1.pos
    let fm2 := fm1.seek ptr
    let (s, fm3) ← fm2.rStrJps?
    let fm4 := fm3.seek pos
    pure (.js s, fm4)
  else if valueType = s2b "Point2" then do
    let (x, fm1) ← fm.rF32?
    let (y, fm2) ← fm1.rF32?
    pure (.jo [(s2b "x", .jf x), (s2b "y", .jf y)], fm2)
  else if valueType = s2b "Point3" then do
    let (x, fm1) ← fm.rF32?
    let (y, fm2) ← fm1.rF32?
    let (z, fm3) ← fm2.rF32?
    pure (.jo [(s2b "x", .jf x), (s2b "y", .jf y), (s2b "z", .jf z)], fm3)
  else if valueType = s2b "Matrix3" then do
    let (a, fm1) ← fm.rF32?
    let (b, fm2) ← fm1.rF32?
    let (c, fm3) ← fm2.rF32?
    let (d, fm4) ← fm3.rF32?
    let (e, fm5) ← fm4.rF32?
    let (f, fm6) ← fm5.rF32?
    let (g, fm7) ← fm6.rF32?
    let (h, fm8) ← fm7.rF32?
    let (i, fm9) ← fm8.rF32?
    pure (.jo [(s2b "m", .ja [.ja [.jf a, .jf b, .jf c],
                              .ja [.jf d, .jf e, .jf f],
                              .ja [.jf g, .jf h, .jf i]])], fm9)
  else if valueType = s2b "Color (RGB)" then do
    let (r, fm1) ← fm.rF32?
    let (g, fm2) ← fm1.rF32?
    let (b, fm3) ← fm2.rF32?
    pure (.jo [(s2b "r", .jf r), (s2b "g", .jf g), (s2b "b", .jf b)], fm3)
  else if valueType = s2b "Color (RGBA)" then do
    let (r, fm1) ← fm.rF32?
    let (g, fm2) ← fm1.rF32?
    let (b, fm3) ← fm2.rF32?
    let (a, fm4) ← fm3.rF32?
    pure (.jo [(s2b "r", .jf r), (s2b "g", .jf g), (s2b "b", .jf b), (s2b "a", .jf a)], fm4)
  else if valueType = s2b "Entity Pointer" then do
    let (v, fm1) ← fm.rU32?
    pure (.ji v, fm1)
  else none

/-- `Property::write_value_for_type` (fails where the source's
`unwrap`s or unknown type names panic). -/
def writeValueForType (fm : FM) (map : List (List Nat × Nat)) (value : JVal)
    (valueType : List Nat) : Option FM :=
  if valueType = s2b "Boolean" then do
    let b ← value.asBool?
    pure (fm.wBool b)
  else if valueType = s2b "Integer" then do
    let v ← value.asI64?
    pure (fm.wU32 (intToU 32 v))
  else if valueType = s2b "Unsigned Integer" then do
    let v ← value.asU64?
    pure (fm.wU32 v)
  else if valueType = s2b "Short" then do
    let v ← value.asI64?
    fm.wU16jps (intToU 16 v) 0
  else if valueType = s2b "Unsigned Short" then do
    let v ← value.asU64?
    fm.wU16jps v 0
  else if valueType = s2b "Float" then do
    let bits ← value.asF32bits?
    pure (fm.wF32 bits)
  else if valueType = s2b "String" then do
    let s ← value.asStr?
    let off ← map.lookup s
    pure (fm.wU32 off)
  else if valueType = s2b "Point2" then do
    let x ← (value.jIndex (s2b "x")).asF32bits?
    let y ← (value.jIndex (s2b "y")).asF32bits?
    pure (fm.write (f32b fm.endian x ++ f32b fm.endian y))
  else if valueType = s2b "Point3" then do
    let x ← (value.jIndex (s2b "x")).asF32bits?
    let y ← (value.jIndex (s2b "y")).asF32bits?
    let z ← (value.jIndex (s2b "z")).asF32bits?
    pure (fm.write (f32b fm.endian x ++ f32b fm.endian y ++ f32b fm.endian z))
  else if valueType = s2b "Matrix3" then do
    let m ← (value.jIndex (s2b "m")).asArr?
    let rows ← m.mapM JVal.asArr?
    let cells ← rows.flatten.mapM JVal.asF32bits?
    if rows.length = 3 ∧ (∀ r ∈ rows, r.length = 3) then
      pure (fm.write (cells.map (f32b fm.endian)).flatten)
    else none
  else if valueType = s2b "Color (RGB)" then do
    let r ← (value.jIndex (s2b "r")).asF32bits?
    let g ← (value.jIndex (s2b "g")).asF32bits?
    let b ← (value.jIndex (s2b "b")).asF32bits?
    pure (fm.write (f32b fm.endian r ++ f32b fm.endian g ++ f32b fm.endian b))
  else if valueType = s2b "Color (RGBA)" then do
    let r ← (value.jIndex (s2b "r")).asF32bits?
    let g ← (value.jIndex (s2b "g")).asF32bits?
    let b ← (value.jIndex (s2b "b")).asF32bits?
    let a ← (value.jIndex (s2b "a")).asF32bits?
    pure (fm.write (f32b fm.endian r ++ f32b fm.endian g ++ f32b fm.endian b ++ f32b fm.endian a))
  else if valueType = s2b "Entity Pointer" then do
    let v ← value.asU64?
    pure (fm.wU32 v)
  else none

/-- The list-mode value loop of `Property::unpack`. -/
def readValueList : Nat → List Nat → FM → Option (List JVal × FM)
  | 0, _, fm => some ([], fm)
  | n + 1, vt, fm => do
      let (v, fm1) ← readValueForType fm vt
      let (rest, fm2) ← readValueList n vt fm1
      pure (v :: rest, fm2)

/-- The storage-mode decode table of `Property::unpack`:
`(list_mode, asset, palette, template)`. -/
def storageModeFlags? : Nat → Option (Bool × Bool × Bool × Bool)
  | 0 => some (false, false, false, false)
  | 1 => some (true, false, false, false)
  | 2 => some (false, true, false, false)
  | 3 => some (true, true, false, false)
  | 4 => some (false, false, true, false)
  | 5 => some (true, false, false, true)
  | _ => none

/-- `Property::unpack`.  The name and class-name offsets receive the
`+4` adjustment for V2-family files; the value reads follow. -/
def unpack (version : SceneFileVersion) (fm : FM) : Option (Property × FM) := do
  let (nameOff0, fm1) ← fm.rU32?
  let (classOff0, fm2) ← fm1.rU32?
  let adj := if version.isV2 then 4 else 0
  let nameOff := nameOff0 + adj
  let classOff := classOff0 + adj
  let pos := fm2.pos
  let fm3 := fm2.seek classOff
  let (className, fm4) ← fm3.rStrJps?
  let fm5 := fm4.seek nameOff
  let (name, fm6) ← fm5.rStrJps?
  let fm7 := fm6.seek pos
  let (dataType, fm8) ← fm7.rU32?
  let flags ← storageModeFlags? dataType
  let (amount, fm9) ← fm8.rU32?
  if flags.1 then do
    let (vs, fm10) ← readValueList amount className fm9
    pure (⟨className, name, flags.2.1, flags.2.2.1, flags.2.2.2, .ja vs⟩, fm10)
  else do
    let (v, fm10) ← readValueForType fm9 className
    pure (⟨className, name, flags.2.1, flags.2.2.1, flags.2.2.2, v⟩, fm10)

/-- The storage-mode encode table of `Property::pack`. -/
def storageModeTag? : Bool → Bool → Bool → Bool → Option Nat
  | false, false, false, false => some 0
  | true, false, false, false => some 1
  | false, true, false, false => some 2
  | true, true, false, false => some 3
  | false, false, true, false => some 4
  | true, false, false, true => some 5
  | _, _, _, _ => none

/-- `Property::pack` into a fresh cursor. -/
def pack (p : Property) (endian : EndianType) (map : List (List Nat × Nat)) :
    Option (List Nat) := do
  let nameOff ← map.lookup p.name
  let classOff ← map.lookup p.className
  let fm := (({ endian, mode := .OVERWRITE, data := [], pos := 0 } : FM).wU32 nameOff).wU32 classOff
  let listMode := p.value.isArr
  let dataType ← storageModeTag? listMode p.asset p.palette p.template
  let amount := match p.value with | .ja vs => vs.length | _ => 1
  let fm := (fm.wU32 dataType).wU32 amount
  let values := match p.value with | .ja vs => vs | v => [v]
  let fm ← values.foldlM (fun f v => writeValueForType f map v p.className) fm
  pure fm.data

end Property

namespace Component

/-- `Component::get_name_for_class_name`. -/
def getNameForClassName (className : List Nat) : List Nat :=
  if className = s2b "NiTransformationComponent" then s2b "Transformation"
  else if className = s2b "JPSTransformationComponent" then s2b "Transformation"
  else if className = s2b "NiSceneGraphComponent" then s2b "Scene Graph"
  else if className = s2b "JPSSceneGraphComponent" then s2b "Scene Graph"
  else if className = s2b "NiLightComponent" then s2b "Light"
  else if className = s2b "JPSLightComponent" then s2b "Light"
  else if className = s2b "NiCameraComponent" then s2b "Camera"
  else if className = s2b "JPSCameraComponent" then s2b "Camera"
  else s2b "Unknown"

/-- The property loop of `Component::unpack`. -/
def unpackProperties : Nat → SceneFileVersion → FM → Option (List Property × FM)
  | 0, _, fm => some ([], fm)
  | n + 1, version, fm => do
      let (p, fm1) ← Property.unpack version fm
      let (rest, fm2) ← unpackProperties n version fm1
      pure (p :: rest, fm2)

/-- `Component::unpack` (class-name and template-id offsets get the
V2-family `+4`; the display name is regenerated from the class name). -/
def unpack (version : SceneFileVersion) (fm : FM) : Option (Component × FM) := do
  let (classOff0, fm1) ← fm.rU32?
  let (tmplOff0, fm2) ← fm1.rU32?
  let adj := if version.isV2 then 4 else 0
  let pos := fm2.pos
  let fm3 := fm2.seek (classOff0 + adj)
  let (className, fm4) ← fm3.rStrJps?
  let fm5 := fm4.seek (tmplOff0 + adj)
  let (tmplStr, fm6) ← fm5.rStrJps?
  let templateId ← ID.fromString tmplStr
  let fm7 := fm6.seek pos
  let (linkId, fm8) ← fm7.rU32?
  let (masterLinkId, fm9) ← fm8.rU32?
  let (amount, fm10) ← fm9.rU32?
  let (props, fm11) ← unpackProperties amount version fm10
  pure (⟨className, getNameForClassName className, templateId, linkId, masterLinkId, props⟩, fm11)

/-- `Component::pack`. -/
def pack (c : Component) (endian : EndianType) (map : List (List Nat × Nat)) :
    Option (List Nat) := do
  let classOff ← map.lookup c.className
  let tmplOff ← map.lookup (ID.toStringNoLeaders c.templateId 4)
  let lk ← ID.toU32 c.linkId
  let ml ← ID.toU32 c.masterLinkId
  let fm := ((((({ endian, mode := .OVERWRITE, data := [], pos := 0 } : FM).wU32 classOff).wU32
      tmplOff).wU32 lk).wU32 ml).wU32 c.properties.length
  let fm ← c.properties.foldlM (fun f p => do
    let bs ← p.pack endian map
    pure (f.write bs)) fm
  pure fm.data

/-- `Component::to_dict`: note that the `name` field IS inserted. -/
def toDict (c : Component) : Option JVal := do
  let lk ← ID.toU32 c.linkId
  let ml ← ID.toU32 c.masterLinkId
  let props := c.properties.map (fun p =>
    JVal.jo [(s2b "class_name", .js p.className), (s2b "name", .js p.name),
             (s2b "asset", .jb p.asset), (s2b "palette", .jb p.palette),
             (s2b "template", .jb p.template), (s2b "value", p.value)])
  let base := [(s2b "class_name", JVal.js c.className), (s2b "name", JVal.js c.name),
               (s2b "template_id", JVal.js (ID.toStringNoLeaders c.templateId 4)),
               (s2b "link_id", JVal.ji lk)]
  let withMaster := if ml ≠ 0 then base ++ [(s2b "master_link_id", JVal.ji ml)] else base
  pure (.jo (withMaster ++ [(s2b "properties", .ja props)]))

/-- `Property::from_dict` (the `value` is stored raw). -/
def propertyFromDict (dict : JVal) : Option Property := do
  let className ← (dict.jIndex (s2b "class_name")).asStr?
  let name ← (dict.jIndex (s2b "name")).asStr?
  let asset ← (dict.jIndex (s2b "asset")).asBool?
  let palette ← (dict.jIndex (s2b "palette")).asBool?
  let template ← (dict.jIndex (s2b "template")).asBool?
  pure ⟨className, name, asset, palette, template, dict.jIndex (s2b "value")⟩

/-- `Component::from_dict`: the `name` is taken from the JSON when the
key is present and only regenerated from the class name when absent. -/
def fromDict (dict : JVal) : Option Component := do
  let className ← (dict.jIndex (s2b "class_name")).asStr?
  let name ← match dict.jGet (s2b "name") with
    | some v => v.asStr?
    | none => pure (getNameForClassName className)
  let tmplStr ← (dict.jIndex (s2b "template_id")).asStr?
  let templateId ← ID.fromString tmplStr
  let linkId0 ← (dict.jIndex (s2b "link_id")).asU64?
  let masterLinkId ← match dict.jGet (s2b "master_link_id") with
    | some v => (v.asU64?).map (· % 2 ^ 32)
    | none => pure 0
  let properties ← match dict.jGet (s2b "properties") with
    | some v => do
        let arr ← v.asArr?
        arr.mapM propertyFromDict
    | none => pure []
  pure ⟨className, name, templateId, linkId0 % 2 ^ 32, masterLinkId, properties⟩

end Component

namespace Entity

/-- The component loop of `Entity::unpack`. -/
def unpackComponents : Nat → SceneFileVersion → FM → Option (List Component × FM)
  | 0, _, fm => some ([], fm)
  | n + 1, version, fm => do
      let (c, fm1) ← Component.unpack version fm
      let (rest, fm2) ← unpackComponents n version fm1
      pure (c :: rest, fm2)

/-- `Entity::unpack`. -/
def unpack (version : SceneFileVersion) (fm : FM) : Option (Entity × FM) := do
  let (nameOff0, fm1) ← fm.rU32?
  let nameOff := nameOff0 + (if version.isV2 then 4 else 0)
  let pos := fm1.pos
  let fm2 := fm1.seek nameOff
  let (name, fm3) ← fm2.rStrJps?
  let fm4 := fm3.seek pos
  let (linkId, fm5) ← fm4.rU32?
  let (masterLinkId, fm6) ← fm5.rU32?
  let (unknown, fm7) ← fm6.rU32?
  let (unknownEm2, fm8) ←
    if version.isV2 then fm7.rU32?
    else pure (0, fm7)
  let (amount, fm9) ← fm8.rU32?
  let (components, fm10) ← unpackComponents amount version fm9
  pure (⟨s2b "JPSGeneralEntity", name, linkId, masterLinkId, unknown, unknownEm2, components⟩, fm10)

/-- `Entity::pack`. -/
def pack (e : Entity) (endian : EndianType) (map : List (List Nat × Nat))
    (version : SceneFileVersion) : Option (List Nat) := do
  let nameOff ← map.lookup e.name
  let lk ← ID.toU32 e.linkId
  let ml ← ID.toU32 e.masterLinkId
  let fm := ((({ endian, mode := .OVERWRITE, data := [], pos := 0 } : FM).wU32 nameOff).wU32 lk).wU32 ml
  let fm := fm.wU32 e.unknown
  let fm := if version.isV2 then fm.wU32 e.unknownEm2 else fm
  let fm := fm.wU32 e.components.length
  let fm ← e.components.foldlM (fun f c => do
    let bs ← c.pack endian map
    pure (f.write bs)) fm
  pure fm.data

end Entity

namespace SceneFile

/-- `SceneFile::add_string`: record the offset (scratch size plus the
start offset) and emit the JPS form, only for strings not yet in the
map. -/
def addString (st : FM × List (List Nat × Nat)) (startOffset : Nat) (s : List Nat) :
    FM × List (List Nat × Nat) :=
  if (st.2.lookup s).isNone then (st.1.wStrJps s, st.2 ++ [(s, st.1.size + startOffset)])
  else st

/-- The string-value pooling for one property inside
`build_strings_and_map` (only `"String"`-typed properties contribute;
`as_str().unwrap()` fails on non-string values). -/
def addPropertyValueStrings (st : FM × List (List Nat × Nat)) (p : Property) :
    Option (FM × List (List Nat × Nat)) :=
  if p.className = s2b "String" then
    if p.value.isArr then do
      let vs ← p.value.asArr?
      vs.foldlM (fun st v => do
        let t ← v.asStr?
        pure (addString st 4 t)) st
    else do
      let t ← p.value.asStr?
      pure (addString st 4 t)
  else some st

/-- `SceneFile::build_strings_and_map` (`start_offset = 4`): walk the
entity/component/property tree in order. -/
def buildStringsAndMap (sf : SceneFile) : Option (List Nat × List (List Nat × Nat)) := do
  let st0 : FM × List (List Nat × Nat) := (⟨.BIG, .OVERWRITE, [], 0⟩, [])
  let st ← sf.objects.foldlM (fun st e => do
    let st := addString st 4 e.name
    e.components.foldlM (fun st c => do
      let st := addString st 4 c.className
      let st := addString st 4 (ID.toStringNoLeaders c.templateId 4)
      c.properties.foldlM (fun st p => do
        let st := addString st 4 p.name
        let st := addString st 4 p.className
        addPropertyValueStrings st p) st) st) st0
  pure (st.1.data, st.2)

/-- `SceneFile::pack`. -/
def pack (sf : SceneFile) (endian : EndianType) : Option (List Nat) := do
  let (stringsData, map) ← sf.buildStringsAndMap
  let fm : FM := { endian, mode := .OVERWRITE, data := [], pos := 0 }
  let fm := if sf.version.isV2 then fm.wU32 0x01000001 else fm
  let fm := fm.wU32 (stringsData.length + 4)
  let fm := fm.write stringsData
  let fm := match sf.version with
    | .Version2 => fm.wU32 0x02000002
    | .Version2Prototype => fm.wU32 0x02000001
    | .Version1 => fm
  let fm := match sf.version with
    | .Version1 | .Version2Prototype => fm.wU128 sf.uniqueId
    | .Version2 => fm
  let fm := if sf.version.isV2 then
      sf.em2ExtraStrings.foldl (fun f s => f.wStrJps s) (fm.wU32 sf.em2ExtraStrings.length)
    else fm
  let fm := fm.wU32 sf.objects.length
  let fm := fm.wU32 sf.scene.length
  let fm ← sf.objects.foldlM (fun f e => do
    let bs ← e.pack endian map sf.version
    pure (f.write bs)) fm
  let fm ← sf.scene.foldlM (fun f id => do
    let v ← ID.toU32 id
    pure (f.wU32 v)) fm
  pure fm.data

/-- The `em2_extra_strings` read loop of `SceneFile::unpack`. -/
def unpackEm2Strings : Nat → FM → Option (List (List Nat) × FM)
  | 0, fm => some ([], fm)
  | n + 1, fm => do
      let (s, fm1) ← fm.rStrJps?
      let (rest, fm2) ← unpackEm2Strings n fm1
      pure (s :: rest, fm2)

/-- The entity read loop of `SceneFile::unpack`. -/
def unpackEntities : Nat → SceneFileVersion → FM → Option (List Entity × FM)
  | 0, _, fm => some ([], fm)
  | n + 1, version, fm => do
      let (e, fm1) ← Entity.unpack version fm
      let (rest, fm2) ← unpackEntities n version fm1
      pure (e :: rest, fm2)

/-- The scene-reference read loop of `SceneFile::unpack`. -/
def unpackRefs : Nat → FM → Option (List Nat × FM)
  | 0, fm => some ([], fm)
  | n + 1, fm => do
      let (v, fm1) ← fm.rU32?
      let (rest, fm2) ← unpackRefs n fm1
      pure (v :: rest, fm2)

/-- `SceneFile::unpack` for a known version. -/
def unpack (version : SceneFileVersion) (fm : FM) : Option SceneFile := do
  let fm ← if version.isV2 then fm.movePos 4 else pure fm
  let (dataOff0, fm) ← fm.rU32?
  let dataOff := dataOff0 + (if version.isV2 then 8 else 0)
  let fm := fm.seek dataOff
  let (uniqueId, fm) ← match version with
    | .Version1 | .Version2Prototype => fm.rU128?
    | .Version2 => pure (0, fm)
  let (em2, fm) ←
    if version.isV2 then do
      let (n, fm1) ← fm.rU32?
      unpackEm2Strings n fm1
    else pure ([], fm)
  let (entityAmount, fm) ← fm.rU32?
  let (refAmount, fm) ← fm.rU32?
  let (objects, fm) ← unpackEntities entityAmount version fm
  let (refs, _) ← unpackRefs refAmount fm
  pure ⟨objects, refs, em2, uniqueId, version⟩

/-- `SceneFile::from_binary`: version detection from the first `u32`
(`0x01000001` routes to the V2 family and the sentinel at
`data_offset + 4` picks V2 vs V2Proto; anything else is V1), then a
fresh `unpack` from position 0. -/
def fromBinary (data : List Nat) (endian : EndianType) : Option SceneFile := do
  let fm : FM := { endian, mode := .OVERWRITE, data, pos := 0 }
  let (first, fm1) ← fm.rU32?
  let version ←
    if first = 0x01000001 then do
      let (off, fm2) ← fm1.rU32?
      let fm3 := fm2.seek (off + 4)
      let (num, _) ← fm3.rU32?
      match num with
      | 0x02000002 => pure SceneFileVersion.Version2
      | 0x02000001 => pure SceneFileVersion.Version2Prototype
      | _ => none
    else pure SceneFileVersion.Version1
  unpack version (fm.seek 0)

end SceneFile

/-! ## Concrete inputs used by the claim theorems -/

/-- A `"String"`-typed property named `"P"` with value `"hi"`. -/
def demoStringProp : Property := ⟨s2b "String", s2b "P", false, false, false, .js (s2b "hi")⟩

/-- A component of (unlisted) class `"C"` holding `demoStringProp`. -/
def demoStringComp : Component := ⟨s2b "C", s2b "Unknown", 0, 1, 0, [demoStringProp]⟩

/-- An entity `"E"` holding `demoStringComp`. -/
def demoStringEnt : Entity := ⟨s2b "JPSGeneralEntity", s2b "E", 1, 0, 0, 0, [demoStringComp]⟩

/-- The V2 scene exercising the string-value pool pointer. -/
def demoSceneV2 : SceneFile := ⟨[demoStringEnt], [], [], 0, .Version2⟩

/-- The same scene as a V1 file. -/
def demoSceneV1 : SceneFile := ⟨[demoStringEnt], [], [], 0, .Version1⟩

/-- `"Boolean"` property `"Active"` with value `true`. -/
def demoBoolProp : Property := ⟨s2b "Boolean", s2b "Active", false, false, false, .jb true⟩

/-- A `JPSTransformationComponent` whose template id parses from
`"a,1f"` (`ID::from_string("a,1f") = 0x0a1f`). -/
def demoTransformComp : Component :=
  ⟨s2b "JPSTransformationComponent", s2b "Transformation", 0x0a1f, 1, 0, [demoBoolProp]⟩

/-- Entity `"E"` for the string-pool scenario. -/
def demoPoolEnt : Entity := ⟨s2b "JPSGeneralEntity", s2b "E", 1, 0, 0, 0, [demoTransformComp]⟩

/-- The scene of the string-pool scenario (claim C3). -/
def demoPoolScene : SceneFile := ⟨[demoPoolEnt], [], [], 0, .Version2⟩

/-- Insertion-ordered keys of the string pool map of a scene. -/
def poolKeys (sf : SceneFile) : Option (List (List Nat)) :=
  (SceneFile.buildStringsAndMap sf).map (fun st => st.2.map Prod.fst)

/-- The DCT of the spec's placeholder scenario: a placeholder entry then
a populated entry `"hi"`, no footer. -/
def demoDct : DCT := ⟨s2b "dct ", 1, 0, 1, [⟨0, []⟩, ⟨0xDEADBEEF, s2b "hi"⟩], []⟩

/-- The header-writing prefix of `DCT::pack` (the eight writes before the
dialog loop). -/
def DCT.headerFM (d : DCT) : FM :=
  ((((((((⟨.LITTLE, .OVERWRITE, [], 0⟩ : FM).wStr d.magic).wU32 d.version1).wU32
    d.hashSeed).wU32 d.version2).wU32 d.dialogEntries.length).wU32 1).wU32
    d.endOffset).wU32 (if d.footerEntries.length > 0 then 1 else 0)

/-- A DCT sample whose first dialog entry is a real line and which also
carries a footer entry. -/
def demoDct2 : DCT :=
  ⟨s2b "dct ", 1, 0, 1, [⟨0xDEADBEEF, s2b "hi"⟩], [⟨7, s2b "ft"⟩]⟩


/-- JSON dict for a component carrying an explicit `"name": "Bar"`. -/
def demoCompDict : JVal :=
  .jo [(s2b "class_name", .js (s2b "Foo")), (s2b "name", .js (s2b "Bar")),
       (s2b "template_id", .js (s2b "0")), (s2b "link_id", .ji 1)]

/-- A component whose display name differs from every table entry. -/
def demoNamedComp : Component := ⟨s2b "Foo", s2b "CustomName", 0, 1, 0, []⟩

/-- Packfile with entries `folder/a.txt` and `folder/b.txt`
(uncompressed). -/
def demoPak : Packfile :=
  ⟨s2b " KAP", 2,
   [⟨s2b "TXT", false, 6, s2b "folder/a.txt", [120]⟩,
    ⟨s2b "TXT", false, 6, s2b "folder/b.txt", [121]⟩]⟩

/-! ## Cursor lemma kit -/

namespace FM

theorem foldl_writeByte (l : List Nat) (fm : FM) :
    l.foldl (fun f b => f.writeByte b) fm
      = { fm with data := fm.data ++ l, pos := fm.pos + l.length } := by
  induction l generalizing fm with
  | nil => simp
  | cons b t ih =>
      rw [List.foldl_cons, ih]
      simp only [writeByte, FM.mk.injEq, List.append_assoc, List.singleton_append,
        List.length_cons, true_and, and_true]
      omega

theorem write_in_range (fm : FM) (bs : List Nat) (hm : fm.mode = .OVERWRITE)
    (h : fm.pos + bs.length ≤ fm.data.length) :
    fm.write bs = { fm with
      data := fm.data.take fm.pos ++ bs ++ fm.data.drop (fm.pos + bs.length),
      pos := fm.pos + bs.length } := by
  simp [write, hm, padTo, Nat.sub_eq_zero_of_le h]

theorem write_at_end (fm : FM) (bs : List Nat) (hm : fm.mode = .OVERWRITE)
    (h : fm.pos = fm.data.length) :
    fm.write bs = { fm with data := fm.data ++ bs, pos := fm.pos + bs.length } := by
  simp [write, hm, padTo, h, List.take_of_length_le, List.drop_of_length_le]

theorem seek_of_le (fm : FM) (p : Nat) (h : p ≤ fm.data.length) :
    fm.seek p = { fm with pos := p } := by
  simp [seek, padTo, Nat.sub_eq_zero_of_le h]

theorem wStrNull_at_end (fm : FM) (s : List Nat) (hm : fm.mode = .OVERWRITE)
    (hp : fm.pos = fm.data.length) :
    fm.wStrNull s
      = { fm with data := fm.data ++ s ++ [0], pos := fm.pos + s.length + 1 } := by
  rw [wStrNull, write_at_end fm s hm hp, writeByte]

theorem write_write_in_range (fm : FM) (as bs : List Nat) (hm : fm.mode = .OVERWRITE)
    (h : fm.pos + as.length + bs.length ≤ fm.data.length) :
    (fm.write as).write bs = fm.write (as ++ bs) := by
  have hp : fm.pos ≤ fm.data.length := by omega
  have h1 : (fm.data.take fm.pos ++ as).length = fm.pos + as.length := by
    simp [Nat.min_eq_left hp]
  have hlen1 : (fm.data.take fm.pos ++ as ++ fm.data.drop (fm.pos + as.length)).length
      = fm.data.length := by
    simp [Nat.min_eq_left hp]
    omega
  rw [write_in_range fm as hm (by omega)]
  rw [write_in_range (⟨fm.endian, fm.mode,
      List.take fm.pos fm.data ++ as ++ List.drop (fm.pos + as.length) fm.data,
      fm.pos + as.length⟩ : FM) bs hm
      (show fm.pos + as.length + bs.length ≤
        (List.take fm.pos fm.data ++ as ++ List.drop (fm.pos + as.length) fm.data).length by
        rw [hlen1]; omega)]
  rw [write_in_range fm (as ++ bs) hm (by simp; omega)]
  have e1 : List.take (fm.pos + as.length)
      (List.take fm.pos fm.data ++ as ++ List.drop (fm.pos + as.length) fm.data)
      = List.take fm.pos fm.data ++ as := List.take_left' h1
  have e2 : List.drop (fm.pos + as.length)
      (List.take fm.pos fm.data ++ as ++ List.drop (fm.pos + as.length) fm.data)
      = List.drop (fm.pos + as.length) fm.data := List.drop_left' h1
  have e3 := congrArg (List.drop bs.length) e2
  rw [List.drop_drop, List.drop_drop] at e3
  simp only [FM.mk.injEq, true_and]
  rw [e1, e3]
  constructor
  · simp [List.append_assoc, Nat.add_assoc]
  · simp
    omega

end FM

/-! ## Pointwise buffer lemma kit -/

namespace FM

theorem getD_append_lt (l l' : List Nat) (i : Nat) (h : i < l.length) :
    (l ++ l').getD i 0 = l.getD i 0 := by
  simp [List.getD_eq_getElem?_getD, List.getElem?_append_left h]

theorem getD_append_at (l l' : List Nat) (i : Nat) :
    (l ++ l').getD (l.length + i) 0 = l'.getD i 0 := by
  simp [List.getD_eq_getElem?_getD, List.getElem?_append_right (Nat.le_add_right l.length i)]

theorem getD_append_replicate_zero (l : List Nat) (i k : Nat) :
    (l ++ List.replicate k 0).getD i 0 = l.getD i 0 := by
  rcases Nat.lt_or_ge i l.length with h | h
  · simp [List.getD_eq_getElem?_getD, List.getElem?_append_left h]
  · rw [List.getD_eq_getElem?_getD, List.getElem?_append_right h,
      List.getD_eq_getElem?_getD]
    rcases Nat.lt_or_ge (i - l.length) k with h2 | h2
    · simp [List.getElem?_replicate, h2, List.getElem?_eq_none (by omega : l.length ≤ i)]
    · rw [List.getElem?_eq_none (by simpa using h2),
        List.getElem?_eq_none (by omega : l.length ≤ i)]

theorem getD_take_lt (l : List Nat) (n i : Nat) (h : i < n) :
    (l.take n).getD i 0 = l.getD i 0 := by
  simp [List.getD_eq_getElem?_getD, List.getElem?_take, h]

theorem getD_drop (l : List Nat) (n i : Nat) :
    (l.drop n).getD i 0 = l.getD (n + i) 0 := by
  simp [List.getD_eq_getElem?_getD, List.getElem?_drop]

theorem padTo_getD (l : List Nat) (n i : Nat) : (padTo l n).getD i 0 = l.getD i 0 :=
  getD_append_replicate_zero l i _

theorem padTo_length (l : List Nat) (n : Nat) :
    (padTo l n).length = max l.length n := by
  simp [padTo]; omega

theorem write_pos (fm : FM) (bs : List Nat) : (fm.write bs).pos = fm.pos + bs.length := by
  cases hm : fm.mode <;> simp [write, hm]

theorem write_mode (fm : FM) (bs : List Nat) : (fm.write bs).mode = fm.mode := by
  cases hm : fm.mode <;> simp [write, hm]

theorem write_endian (fm : FM) (bs : List Nat) : (fm.write bs).endian = fm.endian := by
  cases hm : fm.mode <;> simp [write, hm]

theorem write_length (fm : FM) (bs : List Nat) (hm : fm.mode = .OVERWRITE) :
    (fm.write bs).data.length = max fm.data.length (fm.pos + bs.length) := by
  simp [write, hm, padTo]
  omega

theorem write_getD_outside (fm : FM) (bs : List Nat) (i : Nat) (hm : fm.mode = .OVERWRITE)
    (h : i < fm.pos ∨ fm.pos + bs.length ≤ i) :
    (fm.write bs).data.getD i 0 = fm.data.getD i 0 := by
  simp only [write, hm]
  have hd : (padTo fm.data (fm.pos + bs.length)).length = max fm.data.length (fm.pos + bs.length) :=
    padTo_length _ _
  have htk : ((padTo fm.data (fm.pos + bs.length)).take fm.pos).length = fm.pos := by
    rw [List.length_take, hd]; omega
  have hpb : ((padTo fm.data (fm.pos + bs.length)).take fm.pos ++ bs).length
      = fm.pos + bs.length := by rw [List.length_append, htk]
  rcases h with h | h
  · rw [getD_append_lt _ _ _ (by rw [List.length_append, htk]; omega),
      getD_append_lt _ _ _ (by rw [htk]; exact h),
      getD_take_lt _ _ _ h, padTo_getD]
  · rw [show i = ((padTo fm.data (fm.pos + bs.length)).take fm.pos ++ bs).length
        + (i - fm.pos - bs.length) by rw [hpb]; omega,
      getD_append_at, getD_drop, padTo_getD]
    congr 1
    rw [hpb]

theorem write_getD_in (fm : FM) (bs : List Nat) (i : Nat) (hm : fm.mode = .OVERWRITE)
    (h : i < bs.length) :
    (fm.write bs).data.getD (fm.pos + i) 0 = bs.getD i 0 := by
  simp only [write, hm]
  have htk : ((padTo fm.data (fm.pos + bs.length)).take fm.pos).length = fm.pos := by
    rw [List.length_take, padTo_length]; omega
  rw [getD_append_lt _ _ _ (by rw [List.length_append, htk]; omega),
    show fm.pos + i = ((padTo fm.data (fm.pos + bs.length)).take fm.pos).length + i by rw [htk],
    getD_append_at]

theorem writeByte_getD_lt (fm : FM) (b : Nat) (i : Nat) (h : i < fm.data.length) :
    (fm.writeByte b).data.getD i 0 = fm.data.getD i 0 := by
  simp only [writeByte]
  exact getD_append_lt _ _ _ h

theorem seek_getD (fm : FM) (p i : Nat) : (fm.seek p).data.getD i 0 = fm.data.getD i 0 :=
  padTo_getD _ _ _

theorem seek_pos (fm : FM) (p : Nat) : (fm.seek p).pos = p := rfl

theorem seek_mode (fm : FM) (p : Nat) : (fm.seek p).mode = fm.mode := rfl

theorem seek_endian (fm : FM) (p : Nat) : (fm.seek p).endian = fm.endian := rfl

theorem seek_length_ge (fm : FM) (p : Nat) : p ≤ (fm.seek p).data.length := by
  simp [seek, padTo_length]

theorem wU32_bytes_length (e : EndianType) (v : Nat) :
    (match e with | .BIG => u32be v | .LITTLE => u32le v).length = 4 := by
  cases e <;> simp [u32be, u32le, bytesBE]

theorem wU32_pos (fm : FM) (v : Nat) : (fm.wU32 v).pos = fm.pos + 4 := by
  rw [wU32, write_pos, wU32_bytes_length]

theorem wU32_mode (fm : FM) (v : Nat) : (fm.wU32 v).mode = fm.mode := write_mode _ _

theorem wU32_endian (fm : FM) (v : Nat) : (fm.wU32 v).endian = fm.endian := write_endian _ _

theorem wU32_getD_outside (fm : FM) (v i : Nat) (hm : fm.mode = .OVERWRITE)
    (h : i < fm.pos ∨ fm.pos + 4 ≤ i) :
    (fm.wU32 v).data.getD i 0 = fm.data.getD i 0 := by
  rw [wU32, write_getD_outside _ _ _ hm (by rw [wU32_bytes_length]; exact h)]

theorem wU32_length (fm : FM) (v : Nat) (hm : fm.mode = .OVERWRITE) :
    (fm.wU32 v).data.length = max fm.data.length (fm.pos + 4) := by
  rw [wU32, write_length _ _ hm, wU32_bytes_length]

theorem wStrNull_pos (fm : FM) (s : List Nat) : (fm.wStrNull s).pos = fm.pos + s.length + 1 := by
  rw [wStrNull]
  simp only [writeByte]
  rw [write_pos]

theorem wStrNull_mode (fm : FM) (s : List Nat) : (fm.wStrNull s).mode = fm.mode := write_mode _ _

theorem wStrNull_endian (fm : FM) (s : List Nat) : (fm.wStrNull s).endian = fm.endian :=
  write_endian _ _

theorem wStrNull_getD_lt (fm : FM) (s : List Nat) (i : Nat) (hm : fm.mode = .OVERWRITE)
    (h : i < fm.pos) :
    (fm.wStrNull s).data.getD i 0 = fm.data.getD i 0 := by
  rw [wStrNull, writeByte_getD_lt _ _ _ (by rw [write_length _ _ hm]; omega),
    write_getD_outside _ _ _ hm (Or.inl h)]

end FM

namespace DCT

theorem pack_eq (d : DCT) :
    pack d =
      (if d.footerEntries.length > 0 then
        ((((packFooterLoop d.footerEntries
              (packDialogLoop d.dialogEntries (headerFM d) (headerFM d).pos
                (d.endOffset + 50)).1
              (packDialogLoop d.dialogEntries (headerFM d) (headerFM d).pos
                (d.endOffset + 50)).2.2).write
            [0xDF, 0xFF, 0xFF, 0xFF]).wU32 11).wU32 12).wU32 0
      else (packDialogLoop d.dialogEntries (headerFM d) (headerFM d).pos
        (d.endOffset + 50)).1).data := rfl

theorem headerFM_mode (d : DCT) : (headerFM d).mode = .OVERWRITE := by
  simp [headerFM, FM.wU32_mode, FM.wStr, FM.write_mode]

theorem headerFM_endian (d : DCT) : (headerFM d).endian = .LITTLE := by
  simp [headerFM, FM.wU32_endian, FM.wStr, FM.write_endian]

theorem headerFM_pos (d : DCT) (hm : d.magic.length = 4) : (headerFM d).pos = 32 := by
  simp [headerFM, FM.wU32_pos, FM.wStr, FM.write_pos, hm]

theorem headerFM_length (d : DCT) (hm : d.magic.length = 4) :
    (headerFM d).data.length = 32 := by
  have hws : ∀ (g : FM) (v : Nat), g.mode = WriteMode.OVERWRITE → g.pos = g.data.length →
      (g.wU32 v).pos = (g.wU32 v).data.length ∧ (g.wU32 v).mode = WriteMode.OVERWRITE ∧
        (g.wU32 v).data.length = g.data.length + 4 := by
    intro g v hgm hgp
    refine ⟨?_, by rw [FM.wU32_mode]; exact hgm,
      by rw [FM.wU32_length _ _ hgm, hgp]; omega⟩
    rw [FM.wU32_pos, FM.wU32_length _ _ hgm, hgp]
    omega
  have h0p : ((⟨.LITTLE, .OVERWRITE, [], 0⟩ : FM).wStr d.magic).pos
      = ((⟨.LITTLE, .OVERWRITE, [], 0⟩ : FM).wStr d.magic).data.length := by
    rw [FM.wStr, FM.write_pos, FM.write_length _ _ rfl]
    simp
  have h0m : ((⟨.LITTLE, .OVERWRITE, [], 0⟩ : FM).wStr d.magic).mode = WriteMode.OVERWRITE := by
    rw [FM.wStr, FM.write_mode]
  have h0l : ((⟨.LITTLE, .OVERWRITE, [], 0⟩ : FM).wStr d.magic).data.length = 4 := by
    rw [FM.wStr, FM.write_length _ _ rfl]
    simp [hm]
  obtain ⟨p1, m1, l1⟩ := hws _ d.version1 h0m h0p
  obtain ⟨p2, m2, l2⟩ := hws _ d.hashSeed m1 p1
  obtain ⟨p3, m3, l3⟩ := hws _ d.version2 m2 p2
  obtain ⟨p4, m4, l4⟩ := hws _ d.dialogEntries.length m3 p3
  obtain ⟨p5, m5, l5⟩ := hws _ 1 m4 p4
  obtain ⟨p6, m6, l6⟩ := hws _ d.endOffset m5 p5
  obtain ⟨p7, m7, l7⟩ := hws _ (if d.footerEntries.length > 0 then 1 else 0) m6 p6
  rw [headerFM, l7, l6, l5, l4, l3, l2, l1, h0l]

theorem endOffset_eq (d : DCT) (h1 : 1 ≤ d.dialogEntries.length)
    (hsz : 12 * d.dialogEntries.length + 8 * d.footerEntries.length < 2 ^ 32) :
    d.endOffset = 12 * d.dialogEntries.length + 8 * d.footerEntries.length - 1 := by
  rw [endOffset]
  omega

theorem packDialogLoop_mode (l : List DialogEntry) :
    ∀ (fm : FM) (cdo clo : Nat), (packDialogLoop l fm cdo clo).1.mode = fm.mode := by
  induction l with
  | nil => intro fm cdo clo; rfl
  | cons e rest ih =>
      intro fm cdo clo
      simp only [packDialogLoop]
      by_cases hk : e.hashedKey = 0
      · rw [if_pos hk, ih]
        simp [FM.wU32_mode, FM.seek_mode]
      · rw [if_neg hk, ih]
        simp [FM.seek_mode, FM.wStrNull_mode, FM.wU32_mode]

theorem packDialogLoop_endian (l : List DialogEntry) :
    ∀ (fm : FM) (cdo clo : Nat), (packDialogLoop l fm cdo clo).1.endian = fm.endian := by
  induction l with
  | nil => intro fm cdo clo; rfl
  | cons e rest ih =>
      intro fm cdo clo
      simp only [packDialogLoop]
      by_cases hk : e.hashedKey = 0
      · rw [if_pos hk, ih]
        simp [FM.wU32_endian, FM.seek_endian]
      · rw [if_neg hk, ih]
        simp [FM.seek_endian, FM.wStrNull_endian, FM.wU32_endian]

theorem packDialogLoop_clo_le (l : List DialogEntry) :
    ∀ (fm : FM) (cdo clo : Nat), clo ≤ (packDialogLoop l fm cdo clo).2.2 := by
  induction l with
  | nil => intro fm cdo clo; exact Nat.le_refl _
  | cons e rest ih =>
      intro fm cdo clo
      simp only [packDialogLoop]
      by_cases hk : e.hashedKey = 0
      · rw [if_pos hk]
        exact ih _ _ _
      · rw [if_neg hk]
        refine Nat.le_trans ?_ (ih _ _ _)
        rw [FM.wStrNull_pos, FM.seek_pos]
        omega

theorem packDialogLoop_pos (l : List DialogEntry) :
    ∀ (fm : FM) (cdo clo : Nat), fm.pos = cdo →
      (packDialogLoop l fm cdo clo).1.pos = cdo + 12 * l.length := by
  induction l with
  | nil => intro fm cdo clo h; simpa [packDialogLoop] using h
  | cons e rest ih =>
      intro fm cdo clo h
      simp only [packDialogLoop]
      by_cases hk : e.hashedKey = 0
      · rw [if_pos hk, ih]
        · simp [FM.wU32_pos, FM.seek_pos, List.length_cons]
          ring
        · rfl
      · rw [if_neg hk, ih]
        · simp [FM.seek_pos, FM.wU32_pos, List.length_cons]
          ring
        · simp [FM.seek_pos, FM.wU32_pos]

theorem packDialogLoop_frame (l : List DialogEntry) :
    ∀ (fm : FM) (cdo clo i : Nat), fm.mode = .OVERWRITE →
      cdo + 12 * l.length ≤ clo → i < clo →
      (i < cdo ∨ cdo + 12 * l.length ≤ i) →
      (packDialogLoop l fm cdo clo).1.data.getD i 0 = fm.data.getD i 0 := by
  induction l with
  | nil => intro fm cdo clo i _ _ _ _; rfl
  | cons e rest ih =>
      intro fm cdo clo i hm hb hi hout
      have hb' : cdo + 12 * rest.length + 12 ≤ clo := by
        simp only [List.length_cons] at hb
        omega
      have hout' : i < cdo ∨ cdo + 12 * rest.length + 12 ≤ i := by
        rcases hout with h | h
        · exact Or.inl h
        · simp only [List.length_cons] at h
          right
          omega
      simp only [packDialogLoop]
      by_cases hk : e.hashedKey = 0
      · rw [if_pos hk]
        rw [ih _ _ _ _ (by simp [FM.wU32_mode, FM.seek_mode, hm])
          (by rw [FM.wU32_pos, FM.wU32_pos, FM.wU32_pos, FM.seek_pos]; omega) hi
          (by rw [FM.wU32_pos, FM.wU32_pos, FM.wU32_pos, FM.seek_pos]
              rcases hout' with h | h
              · left; omega
              · right; omega)]
        rw [FM.wU32_getD_outside _ _ _ (by simp [FM.wU32_mode, FM.seek_mode, hm])
          (by rw [FM.wU32_pos, FM.wU32_pos, FM.seek_pos]
              rcases hout' with h | h
              · left; omega
              · right; omega)]
        rw [FM.wU32_getD_outside _ _ _ (by simp [FM.wU32_mode, FM.seek_mode, hm])
          (by rw [FM.wU32_pos, FM.seek_pos]
              rcases hout' with h | h
              · left; omega
              · right; omega)]
        rw [FM.wU32_getD_outside _ _ _ (by simp [FM.seek_mode, hm])
          (by rw [FM.seek_pos]
              rcases hout' with h | h
              · left; omega
              · right; omega)]
        rw [FM.seek_getD]
      · rw [if_neg hk]
        have hp3 : ((((fm.seek cdo).wU32 e.hashedKey).wU32
            (clo - ((fm.seek cdo).wU32 e.hashedKey).pos - 1)).wU32 0).pos = cdo + 12 := by
          rw [FM.wU32_pos, FM.wU32_pos, FM.wU32_pos, FM.seek_pos]
        have hp5 : ((((((fm.seek cdo).wU32 e.hashedKey).wU32
              (clo - ((fm.seek cdo).wU32 e.hashedKey).pos - 1)).wU32 0).seek clo).wStrNull
            e.text).pos = clo + e.text.length + 1 := by
          rw [FM.wStrNull_pos, FM.seek_pos]
        rw [ih _ _ _ _
          (by simp [FM.seek_mode, FM.wStrNull_mode, FM.wU32_mode, hm])
          (by rw [hp3, hp5]; omega)
          (by rw [hp5]; omega)
          (by rw [hp3]
              rcases hout' with h | h
              · left; omega
              · right; omega)]
        rw [FM.seek_getD]
        rw [FM.wStrNull_getD_lt _ _ _
          (by simp [FM.seek_mode, FM.wU32_mode, hm])
          (by rw [FM.seek_pos]; exact hi)]
        rw [FM.seek_getD]
        rw [FM.wU32_getD_outside _ _ _ (by simp [FM.wU32_mode, FM.seek_mode, hm])
          (by rw [FM.wU32_pos, FM.wU32_pos, FM.seek_pos]
              rcases hout' with h | h
              · left; omega
              · right; omega)]
        rw [FM.wU32_getD_outside _ _ _ (by simp [FM.wU32_mode, FM.seek_mode, hm])
          (by rw [FM.wU32_pos, FM.seek_pos]
              rcases hout' with h | h
              · left; omega
              · right; omega)]
        rw [FM.wU32_getD_outside _ _ _ (by simp [FM.seek_mode, hm])
          (by rw [FM.seek_pos]
              rcases hout' with h | h
              · left; omega
              · right; omega)]
        rw [FM.seek_getD]

theorem packFooterLoop_mode (l : List FooterEntry) :
    ∀ (fm : FM) (clo : Nat), (packFooterLoop l fm clo).mode = fm.mode := by
  induction l with
  | nil => intro fm clo; rfl
  | cons e rest ih =>
      intro fm clo
      simp only [packFooterLoop]
      rw [ih]
      simp [FM.seek_mode, FM.wStrNull_mode, FM.wU32_mode]

theorem packFooterLoop_pos (l : List FooterEntry) :
    ∀ (fm : FM) (clo : Nat), (packFooterLoop l fm clo).pos = fm.pos + 8 * l.length := by
  induction l with
  | nil => intro fm clo; simp [packFooterLoop]
  | cons e rest ih =>
      intro fm clo
      simp only [packFooterLoop]
      rw [ih]
      simp only [FM.seek_pos, FM.wU32_pos, List.length_cons]
      ring

theorem packFooterLoop_frame (l : List FooterEntry) :
    ∀ (fm : FM) (clo i : Nat), fm.mode = .OVERWRITE →
      fm.pos + 8 * l.length ≤ clo → i < clo →
      (i < fm.pos ∨ fm.pos + 8 * l.length ≤ i) →
      (packFooterLoop l fm clo).data.getD i 0 = fm.data.getD i 0 := by
  induction l with
  | nil => intro fm clo i _ _ _ _; rfl
  | cons e rest ih =>
      intro fm clo i hm hb hi hout
      have hb' : fm.pos + 8 * rest.length + 8 ≤ clo := by
        simp only [List.length_cons] at hb
        omega
      have hout' : i < fm.pos ∨ fm.pos + 8 * rest.length + 8 ≤ i := by
        rcases hout with h | h
        · exact Or.inl h
        · simp only [List.length_cons] at h
          right
          omega
      simp only [packFooterLoop]
      have hp2 : ((fm.wU32 (clo - fm.pos - 1)).wU32 e.number).pos = fm.pos + 8 := by
        rw [FM.wU32_pos, FM.wU32_pos]
      have hp4 : ((((fm.wU32 (clo - fm.pos - 1)).wU32 e.number).seek clo).wStrNull
          e.text).pos = clo + e.text.length + 1 := by
        rw [FM.wStrNull_pos, FM.seek_pos]
      rw [ih _ _ _
        (by simp [FM.seek_mode, FM.wStrNull_mode, FM.wU32_mode, hm])
        (by rw [FM.seek_pos, hp2, hp4]; omega)
        (by rw [hp4]; omega)
        (by rw [FM.seek_pos, hp2]
            rcases hout' with h | h
            · left; omega
            · right; omega)]
      rw [FM.seek_getD]
      rw [FM.wStrNull_getD_lt _ _ _
        (by simp [FM.seek_mode, FM.wU32_mode, hm])
        (by rw [FM.seek_pos]; exact hi)]
      rw [FM.seek_getD]
      rw [FM.wU32_getD_outside _ _ _ (by simp [FM.wU32_mode, hm])
        (by rw [FM.wU32_pos]
            rcases hout' with h | h
            · left; omega
            · right; omega)]
      rw [FM.wU32_getD_outside _ _ _ hm
        (by rcases hout' with h | h
            · left; omega
            · right; omega)]

theorem zeros4_getD : ∀ i : Nat, ([0, 0, 0, 0] : List Nat).getD i 0 = 0 := by
  intro i
  rcases i with _ | _ | _ | _ | i <;> rfl

theorem wU32_zero_le (g : FM) (hg : g.endian = .LITTLE) : g.wU32 0 = g.write [0, 0, 0, 0] := by
  rw [FM.wU32, hg]
  rfl

theorem packDialogLoop_slot_zeros (l : List DialogEntry) :
    ∀ (fm : FM) (cdo clo j : Nat) (hj : j < l.length),
      fm.mode = .OVERWRITE → fm.endian = .LITTLE →
      cdo + 12 * l.length ≤ clo →
      (l.get ⟨j, hj⟩).hashedKey = 0 →
      ∀ i, i < 12 →
        (packDialogLoop l fm cdo clo).1.data.getD (cdo + 12 * j + i) 0 = 0 := by
  induction l with
  | nil => intro fm cdo clo j hj; exact absurd hj (by simp)
  | cons e rest ih =>
      intro fm cdo clo j hj hm hend hb hk i hi
      have hb' : cdo + 12 * rest.length + 12 ≤ clo := by
        simp only [List.length_cons] at hb
        omega
      simp only [packDialogLoop]
      cases j with
      | zero =>
          have hk0 : e.hashedKey = 0 := hk
          rw [if_pos hk0]
          have he0 : (fm.seek cdo).endian = EndianType.LITTLE := by
            rw [FM.seek_endian]; exact hend
          have he1 : ((fm.seek cdo).write [0, 0, 0, 0]).endian = EndianType.LITTLE := by
            rw [FM.write_endian]; exact he0
          have he2 : (((fm.seek cdo).write [0, 0, 0, 0]).write [0, 0, 0, 0]).endian
              = EndianType.LITTLE := by
            rw [FM.write_endian]; exact he1
          have hm0 : (fm.seek cdo).mode = WriteMode.OVERWRITE := by
            rw [FM.seek_mode]; exact hm
          have hm1 : ((fm.seek cdo).write [0, 0, 0, 0]).mode = WriteMode.OVERWRITE := by
            rw [FM.write_mode]; exact hm0
          have hm2 : (((fm.seek cdo).write [0, 0, 0, 0]).write [0, 0, 0, 0]).mode
              = WriteMode.OVERWRITE := by
            rw [FM.write_mode]; exact hm1
          have hidx : cdo + 12 * 0 + i = cdo + i := by ring
          rw [hidx]
          rw [wU32_zero_le _ he0, wU32_zero_le _ he1, wU32_zero_le _ he2]
          rw [packDialogLoop_frame rest _ _ _ _
            (by rw [FM.write_mode]; exact hm2)
            (by rw [FM.write_pos, FM.write_pos, FM.write_pos, FM.seek_pos]
                simp only [List.length_cons, List.length_nil]
                omega)
            (by omega)
            (Or.inl (by
              rw [FM.write_pos, FM.write_pos, FM.write_pos, FM.seek_pos]
              simp only [List.length_cons, List.length_nil]
              omega))]
          rcases Nat.lt_or_ge i 4 with h4 | h4
          · rw [FM.write_getD_outside _ _ _ hm2
              (Or.inl (by rw [FM.write_pos, FM.write_pos, FM.seek_pos]
                          simp only [List.length_cons, List.length_nil]; omega))]
            rw [FM.write_getD_outside _ _ _ hm1
              (Or.inl (by rw [FM.write_pos, FM.seek_pos]
                          simp only [List.length_cons, List.length_nil]; omega))]
            rw [show cdo + i = (fm.seek cdo).pos + i from by rw [FM.seek_pos]]
            rw [FM.write_getD_in _ _ _ hm0 (by simpa using h4)]
            exact zeros4_getD i
          · rcases Nat.lt_or_ge i 8 with h8 | h8
            · rw [FM.write_getD_outside _ _ _ hm2
                (Or.inl (by rw [FM.write_pos, FM.write_pos, FM.seek_pos]
                            simp only [List.length_cons, List.length_nil]; omega))]
              rw [show cdo + i = ((fm.seek cdo).write [0, 0, 0, 0]).pos + (i - 4) from by
                rw [FM.write_pos, FM.seek_pos]
                simp only [List.length_cons, List.length_nil]
                omega]
              rw [FM.write_getD_in _ _ _ hm1 (by simp; omega)]
              exact zeros4_getD (i - 4)
            · rw [show cdo + i
                  = (((fm.seek cdo).write [0, 0, 0, 0]).write [0, 0, 0, 0]).pos + (i - 8) from by
                rw [FM.write_pos, FM.write_pos, FM.seek_pos]
                simp only [List.length_cons, List.length_nil]
                omega]
              rw [FM.write_getD_in _ _ _ hm2 (by simp; omega)]
              exact zeros4_getD (i - 8)
      | succ j =>
          have hj' : j < rest.length := by
            simp only [List.length_cons] at hj
            omega
          have hk' : (rest.get ⟨j, hj'⟩).hashedKey = 0 := hk
          by_cases hk0 : e.hashedKey = 0
          · rw [if_pos hk0]
            have hp1 : ((((fm.seek cdo).wU32 0).wU32 0).wU32 0).pos = cdo + 12 := by
              rw [FM.wU32_pos, FM.wU32_pos, FM.wU32_pos, FM.seek_pos]
            rw [show cdo + 12 * (j + 1) + i
                = ((((fm.seek cdo).wU32 0).wU32 0).wU32 0).pos + 12 * j + i from by
              rw [hp1]; ring]
            exact ih _ _ _ _ hj'
              (by simp [FM.wU32_mode, FM.seek_mode, hm])
              (by simp [FM.wU32_endian, FM.seek_endian, hend])
              (by rw [hp1]; omega) hk' i hi
          · rw [if_neg hk0]
            have hp3 : ((((fm.seek cdo).wU32 e.hashedKey).wU32
                (clo - ((fm.seek cdo).wU32 e.hashedKey).pos - 1)).wU32 0).pos = cdo + 12 := by
              rw [FM.wU32_pos, FM.wU32_pos, FM.wU32_pos, FM.seek_pos]
            have hp5 : ((((((fm.seek cdo).wU32 e.hashedKey).wU32
                  (clo - ((fm.seek cdo).wU32 e.hashedKey).pos - 1)).wU32 0).seek clo).wStrNull
                e.text).pos = clo + e.text.length + 1 := by
              rw [FM.wStrNull_pos, FM.seek_pos]
            rw [show cdo + 12 * (j + 1) + i
                = ((((fm.seek cdo).wU32 e.hashedKey).wU32
                    (clo - ((fm.seek cdo).wU32 e.hashedKey).pos - 1)).wU32 0).pos + 12 * j + i from by
              rw [hp3]; ring]
            exact ih _ _ _ _ hj'
              (by simp [FM.seek_mode, FM.wStrNull_mode, FM.wU32_mode, hm])
              (by simp [FM.seek_endian, FM.wStrNull_endian, FM.wU32_endian, hend])
              (by rw [hp3, hp5]; omega) hk' i hi

theorem packDialogLoop_first_text (rest : List DialogEntry) (fm : FM) (cdo clo : Nat)
    (e : DialogEntry) (hk : e.hashedKey ≠ 0) (hm : fm.mode = .OVERWRITE)
    (hend : fm.endian = .LITTLE) (hlen : fm.data.length = cdo) (hpos : fm.pos = cdo)
    (hclo : cdo + 12 + 12 * rest.length ≤ clo) :
    (∀ i, i < e.text.length + 1 →
      (packDialogLoop (e :: rest) fm cdo clo).1.data.getD (clo + i) 0
        = (e.text ++ [0]).getD i 0) ∧
    clo + e.text.length + 1 ≤ (packDialogLoop (e :: rest) fm cdo clo).2.2 := by
  simp only [packDialogLoop]
  rw [if_neg hk]
  have hseek : fm.seek cdo = { fm with pos := cdo } := FM.seek_of_le _ _ (by omega)
  rw [hseek]
  have hm1 : ({ fm with pos := cdo } : FM).mode = WriteMode.OVERWRITE := hm
  have hl1 : (({ fm with pos := cdo } : FM).wU32 e.hashedKey).data.length = cdo + 4 := by
    rw [FM.wU32_length _ _ hm1]
    simp [hlen]
  have hp1 : (({ fm with pos := cdo } : FM).wU32 e.hashedKey).pos = cdo + 4 :=
    FM.wU32_pos _ _
  have hm2 := (FM.wU32_mode ({ fm with pos := cdo } : FM) e.hashedKey).trans hm1
  have hl2 : ((({ fm with pos := cdo } : FM).wU32 e.hashedKey).wU32
      (clo - (({ fm with pos := cdo } : FM).wU32 e.hashedKey).pos - 1)).data.length
      = cdo + 8 := by
    rw [FM.wU32_length _ _ hm2, hl1, hp1]
    omega
  have hp2 : ((({ fm with pos := cdo } : FM).wU32 e.hashedKey).wU32
      (clo - (({ fm with pos := cdo } : FM).wU32 e.hashedKey).pos - 1)).pos = cdo + 8 := by
    rw [FM.wU32_pos, hp1]
  have hm3 := (FM.wU32_mode _ (clo - (({ fm with pos := cdo } : FM).wU32 e.hashedKey).pos
    - 1)).trans hm2
  have hl3 : (((({ fm with pos := cdo } : FM).wU32 e.hashedKey).wU32
      (clo - (({ fm with pos := cdo } : FM).wU32 e.hashedKey).pos - 1)).wU32 0).data.length
      = cdo + 12 := by
    rw [FM.wU32_length _ _ hm3, hl2, hp2]
    omega
  have hp3 : (((({ fm with pos := cdo } : FM).wU32 e.hashedKey).wU32
      (clo - (({ fm with pos := cdo } : FM).wU32 e.hashedKey).pos - 1)).wU32 0).pos
      = cdo + 12 := by
    rw [FM.wU32_pos, hp2]
  have hm4 := (FM.wU32_mode _ 0).trans hm3
  have hl4 : ((((({ fm with pos := cdo } : FM).wU32 e.hashedKey).wU32
      (clo - (({ fm with pos := cdo } : FM).wU32 e.hashedKey).pos - 1)).wU32 0).seek
      clo).data.length = clo := by
    simp only [FM.seek, FM.padTo_length, hl3]
    omega
  have hp4 : ((((({ fm with pos := cdo } : FM).wU32 e.hashedKey).wU32
      (clo - (({ fm with pos := cdo } : FM).wU32 e.hashedKey).pos - 1)).wU32 0).seek
      clo).pos = clo := rfl
  have hm5 : ((((({ fm with pos := cdo } : FM).wU32 e.hashedKey).wU32
      (clo - (({ fm with pos := cdo } : FM).wU32 e.hashedKey).pos - 1)).wU32 0).seek
      clo).mode = WriteMode.OVERWRITE := (FM.seek_mode _ _).trans hm4
  have hwsn := FM.wStrNull_at_end _ e.text hm5 (hp4.trans hl4.symm)
  rw [hwsn]
  simp only [hp4, hp3]
  constructor
  · intro i hi
    rw [packDialogLoop_frame rest _ _ _ _
      (by simp only [FM.seek_mode]; exact hm5)
      (by omega) (by omega) (Or.inr (by omega))]
    rw [FM.seek_getD]
    simp only [List.append_assoc]
    rw [show clo + i
        = ((((({ fm with pos := cdo } : FM).wU32 e.hashedKey).wU32
          (clo - (({ fm with pos := cdo } : FM).wU32 e.hashedKey).pos - 1)).wU32 0).seek
          clo).data.length + i from by rw [hl4]]
    exact FM.getD_append_at _ _ _
  · exact packDialogLoop_clo_le _ _ _ _

end DCT

end EM

namespace EM

/-! ## Claim theorems -/

/-- C8 counterexample: on a fresh cursor, `w_str_jps("ab")` does NOT
produce `[04, 03, 61, 62, 00]` with the cursor at 5 (the source rounds
`size = text_length + 2 = 5` up to 8 and writes three trailing zeros). -/
theorem c8_counterexample :
    ¬((FM.wStrJps ⟨.BIG, .OVERWRITE, [], 0⟩ (s2b "ab")).data = [0x04, 0x03, 0x61, 0x62, 0x00]
      ∧ (FM.wStrJps ⟨.BIG, .OVERWRITE, [], 0⟩ (s2b "ab")).pos = 5) := by
  decide

/-- C8 (amended): writing the JPS string `"ab"` on a fresh cursor
produces exactly the bytes `[08, 03, 61, 62, 00, 00, 00, 00]`, leaves
the cursor at offset 8, and a subsequent `align(4)` succeeds and leaves
the state unchanged (cursor still 8, nothing written). -/
theorem c8_jps_ab :
    (FM.wStrJps ⟨.BIG, .OVERWRITE, [], 0⟩ (s2b "ab")).data
        = [0x08, 0x03, 0x61, 0x62, 0x00, 0x00, 0x00, 0x00]
    ∧ (FM.wStrJps ⟨.BIG, .OVERWRITE, [], 0⟩ (s2b "ab")).pos = 8
    ∧ FM.align (FM.wStrJps ⟨.BIG, .OVERWRITE, [], 0⟩ (s2b "ab")) 4
        = some (FM.wStrJps ⟨.BIG, .OVERWRITE, [], 0⟩ (s2b "ab")) := by
  decide

/-- C6: `Packfile::from_binary` endian autodetection — a `"PAK "` prefix
selects little endian, `" KAP"` selects big endian, and any other 4-byte
prefix fails (`BadMagic`). -/
theorem c6_packfile_magic (data : List Nat) (h4 : 4 ≤ data.length) :
    (data.take 4 = s2b "PAK " → Packfile.detectEndian data = some .LITTLE)
    ∧ (data.take 4 = s2b " KAP" → Packfile.detectEndian data = some .BIG)
    ∧ (data.take 4 ≠ s2b "PAK " → data.take 4 ≠ s2b " KAP" →
        Packfile.detectEndian data = none) := by
  have hlt : ¬data.length < 4 := Nat.not_lt.mpr h4
  refine ⟨fun h => ?_, fun h => ?_, fun h1 h2 => ?_⟩
  · simp [Packfile.detectEndian, hlt, h]
  · have hne : s2b " KAP" ≠ s2b "PAK " := by decide
    simp [Packfile.detectEndian, hlt, h, hne]
  · simp [Packfile.detectEndian, hlt, h1, h2]

/-- C10: `write_byte` always appends at the END of the buffer and
advances the position by one, regardless of the cursor; hence `pad` at
an already-aligned position appends `n` zeros (not none), `w_bool`
appends its four bytes at the end, the two filler bytes of
`w_u16_jps`/`w_s16_jps` are appended at the end after the in-place
2-byte write (which leaves the length unchanged when the cursor is not
at the end), and `w_str_jps`'s NUL and padding bytes are appended at the
end while its header and text overwrite in place. -/
theorem c10_write_byte_frame :
    (∀ (fm : FM) (b : Nat),
        (fm.writeByte b).data = fm.data ++ [b] ∧ (fm.writeByte b).pos = fm.pos + 1)
    ∧ (∀ (fm : FM) (n : Nat), 0 < n → fm.pos % n = 0 →
        (fm.pad n).data = fm.data ++ List.replicate n 0 ∧ (fm.pad n).pos = fm.pos + n)
    ∧ (∀ (fm : FM) (v : Bool),
        (fm.wBool v).data = fm.data ++ List.replicate 4 (if v then 255 else 0)
        ∧ (fm.wBool v).pos = fm.pos + 4)
    ∧ (∀ (fm : FM) (v : Nat), fm.mode = .OVERWRITE → fm.pos + 2 ≤ fm.data.length →
        (fm.wU16jps v 0).map FM.data
          = some ((fm.data.take fm.pos
              ++ (match fm.endian with | .BIG => bytesBE 2 v | .LITTLE => (bytesBE 2 v).reverse)
              ++ fm.data.drop (fm.pos + 2)) ++ [0xCD, 0xCD])
        ∧ (fm.wU16jps v 0).map FM.pos = some (fm.pos + 4))
    ∧ (∀ (fm : FM) (s : List Nat), fm.mode = .OVERWRITE →
        fm.pos + 2 + s.length ≤ fm.data.length →
        (fm.wStrJps s).data
          = (fm.data.take fm.pos ++ ([FM.jpsSize s % 256, FM.jpsTextLength s % 256] ++ s)
              ++ fm.data.drop (fm.pos + (2 + s.length)))
            ++ [0]
            ++ List.replicate
                (if FM.jpsTextLength s > 0 then FM.jpsSize s - FM.jpsTextLength s - 2 else 1) 0
        ∧ (fm.wStrJps s).pos
          = fm.pos + (2 + s.length) + 1
            + (if FM.jpsTextLength s > 0 then FM.jpsSize s - FM.jpsTextLength s - 2 else 1)) := by
  refine ⟨fun fm b => ⟨rfl, rfl⟩, fun fm n hn ha => ?_, fun fm v => ?_, fun fm v hm h => ?_,
    fun fm s hm h => ?_⟩
  · rw [FM.pad, ha, Nat.sub_zero, FM.foldl_writeByte]
    simp
  · rw [FM.wBool, FM.foldl_writeByte]
    simp
  · have h2 : (match fm.endian with
        | EndianType.BIG => bytesBE 2 v
        | EndianType.LITTLE => (bytesBE 2 v).reverse).length = 2 := by
      cases fm.endian <;> simp [bytesBE]
    have e := FM.write_in_range fm (match fm.endian with
        | EndianType.BIG => bytesBE 2 v
        | EndianType.LITTLE => (bytesBE 2 v).reverse) hm (by rw [h2]; omega)
    constructor
    · simp only [FM.wU16jps, FM.wU16, e, FM.writeByte, Option.map_some, h2]
      simp
    · simp only [FM.wU16jps, FM.wU16, e, FM.writeByte, Option.map_some, Option.some.injEq]
      simp [h2]
  · have e01 : (fm.wU8 (FM.jpsSize s)).wU8 (FM.jpsTextLength s)
        = fm.write [FM.jpsSize s % 256, FM.jpsTextLength s % 256] := by
      rw [FM.wU8, FM.wU8]
      exact FM.write_write_in_range fm [FM.jpsSize s % 256] [FM.jpsTextLength s % 256] hm
        (by simp; omega)
    have e02 : (fm.write [FM.jpsSize s % 256, FM.jpsTextLength s % 256]).write s
        = fm.write ([FM.jpsSize s % 256, FM.jpsTextLength s % 256] ++ s) := by
      exact FM.write_write_in_range fm _ s hm (by simp; omega)
    have e03 := FM.write_in_range fm ([FM.jpsSize s % 256, FM.jpsTextLength s % 256] ++ s) hm
      (by simp; omega)
    rw [FM.wStrJps, FM.foldl_writeByte, FM.wStrNull, e01, e02]
    rw [e03]
    simp [FM.writeByte]
    constructor
    · rw [show fm.pos + (s.length + 1 + 1) = fm.pos + (2 + s.length) by omega]
    · omega

/-- C10 witness: the frame equations applied at concrete states — a
mid-buffer `write_byte` and a `pad(4)` at an aligned cursor, plus a
mid-buffer `w_str_jps`. -/
theorem c10_write_byte_frame_witness :
    (FM.writeByte ⟨.BIG, .OVERWRITE, [7, 7], 0⟩ 3).data = [7, 7, 3]
    ∧ (FM.pad ⟨.BIG, .OVERWRITE, [1, 2, 3, 4], 4⟩ 4).data = [1, 2, 3, 4, 0, 0, 0, 0]
    ∧ (FM.wStrJps ⟨.BIG, .OVERWRITE, [9, 9, 9, 9, 9, 9], 1⟩ (s2b "ab")).data
        = [9, 8, 3, 97, 98, 9, 0, 0, 0, 0] := by
  refine ⟨?_, ?_, ?_⟩
  · rw [(c10_write_byte_frame.1 ⟨.BIG, .OVERWRITE, [7, 7], 0⟩ 3).1]
    rfl
  · rw [(c10_write_byte_frame.2.1 ⟨.BIG, .OVERWRITE, [1, 2, 3, 4], 4⟩ 4 (by decide) (by decide)).1]
    rfl
  · rw [(c10_write_byte_frame.2.2.2.2 ⟨.BIG, .OVERWRITE, [9, 9, 9, 9, 9, 9], 1⟩ (s2b "ab")
      rfl (by decide)).1]
    decide

/-- C1 (code bug): in a V2 scene binary, the property name and
class-name offsets get the `+4` adjustment (the names `"E"`, `"P"`,
`"String"` all round-trip), but the `u32` pool pointer stored as the
value of a `"String"`-typed property is dereferenced WITHOUT the `+4`,
so the value `"hi"` decodes as the empty string; the same scene as a V1
file (no adjustment anywhere) round-trips completely. -/
theorem c1_string_pointer_unadjusted :
    ((SceneFile.pack demoSceneV2 .BIG).bind (fun bs => SceneFile.fromBinary bs .BIG)).map
        (fun sf => sf.objects.map (fun e => (e.name,
          e.components.map (fun c => c.properties.map (fun p => (p.name, p.className, p.value))))))
      = some [(s2b "E", [[(s2b "P", s2b "String", JVal.js [])]])]
    ∧ ([] : List Nat) ≠ s2b "hi"
    ∧ ((SceneFile.pack demoSceneV1 .BIG).bind (fun bs => SceneFile.fromBinary bs .BIG)).map
        (fun sf => sf.objects.map (fun e => (e.name,
          e.components.map (fun c => c.properties.map (fun p => (p.name, p.className, p.value))))))
      = some [(s2b "E", [[(s2b "P", s2b "String", JVal.js (s2b "hi"))]])] := by
  refine ⟨rfl, by decide, rfl⟩

/-- C2 counterexample: `Component::from_dict` takes the `name` from the
JSON when present (`"Bar"`, not the table's `"Unknown"` for class
`"Foo"`), and `Component::to_dict` DOES emit a `name` field. -/
theorem c2_counterexample :
    (Component.fromDict demoCompDict).map Component.name = some (s2b "Bar")
    ∧ s2b "Bar" ≠ Component.getNameForClassName (s2b "Foo")
    ∧ (Component.toDict demoNamedComp).map (fun d => d.jGet (s2b "name"))
        = some (some (.js (s2b "CustomName"))) := by
  refine ⟨rfl, by decide, rfl⟩

/-- C2 (amended): `Component::from_dict` uses the JSON `name` when the
key is present and falls back to the class-name table only when it is
absent; `Component::to_dict` includes the `name` field in the emitted
JSON. -/
theorem c2_component_name_json :
    (∀ (dict : JVal) (c : Component), Component.fromDict dict = some c →
        (dict.jGet (s2b "name") = none →
            c.name = Component.getNameForClassName c.className)
        ∧ ∀ v, dict.jGet (s2b "name") = some v → v.asStr? = some c.name)
    ∧ (∀ (c : Component) (d : JVal), Component.toDict c = some d →
        d.jGet (s2b "name") = some (.js c.name)) := by
  constructor
  · intro dict c h
    cases hget : dict.jGet (s2b "name") with
    | none =>
        refine ⟨fun _ => ?_, fun v hv => by cases hv⟩
        simp only [Component.fromDict, hget, Option.pure_def, Option.bind_eq_bind,
          Option.some_bind, Option.bind_eq_some, Option.some.injEq] at h
        obtain ⟨cn, hcn, ts, hts, tid, htid, lk, hlk, h⟩ := h
        revert h
        cases dict.jGet (s2b "master_link_id") <;> cases dict.jGet (s2b "properties") <;>
          intro h <;>
          simp only [Option.some_bind, Option.bind_eq_some, Option.map_eq_some,
            Option.some.injEq] at h
        all_goals (repeat obtain ⟨_, _, h⟩ := h)
        all_goals (first | (cases h; rfl) | rfl)
    | some v =>
        refine ⟨fun hnone => (by cases hnone), fun w hw => ?_⟩
        cases hw
        simp only [Component.fromDict, hget, Option.pure_def, Option.bind_eq_bind,
          Option.some_bind, Option.bind_eq_some, Option.some.injEq] at h
        obtain ⟨cn, hcn, nm, hnm, ts, hts, tid, htid, lk, hlk, h⟩ := h
        revert h
        cases dict.jGet (s2b "master_link_id") <;> cases dict.jGet (s2b "properties") <;>
          intro h <;>
          simp only [Option.some_bind, Option.bind_eq_some, Option.map_eq_some,
            Option.some.injEq] at h
        all_goals (repeat obtain ⟨_, _, h⟩ := h)
        all_goals (first | (cases h; exact hnm) | exact hnm)
  · intro c d h
    simp only [Component.toDict, Option.pure_def, Option.bind_eq_bind, Option.some_bind,
      Option.bind_eq_some, Option.some.injEq] at h
    obtain ⟨lk, hlk, ml, hml, hd⟩ := h
    subst hd
    by_cases hml0 : ml ≠ 0 <;>
      simp [JVal.jGet, hml0, List.lookup, show (s2b "name" == s2b "class_name") = false by decide,
        show (s2b "name" == s2b "name") = true by decide]

/-- C2 witness: the amended behaviour at the concrete dict and
component. -/
theorem c2_component_name_json_witness :
    ((Component.fromDict demoCompDict).map Component.name = some (s2b "Bar"))
    ∧ ∀ d, Component.toDict demoNamedComp = some d →
        d.jGet (s2b "name") = some (.js (s2b "CustomName")) := by
  constructor
  · have h := (c2_component_name_json.1 demoCompDict
      ⟨s2b "Foo", s2b "Bar", 0, 1, 0, []⟩ rfl).2 (.js (s2b "Bar")) rfl
    simp only [JVal.asStr?, Option.some.injEq] at h
    rfl
  · intro d hd
    exact c2_component_name_json.2 demoNamedComp d hd

/-- C3 counterexample: the pooled strings of the scenario scene are NOT
`{"E", "JPSTransformationComponent", "a,1f", "Boolean", "Active"}` in
that order — the template id is pooled as `"0,0,a,1f"` (so `"a,1f"` is
not in the pool at all), and the property name `"Active"` is pooled
before its class name `"Boolean"`. -/
theorem c3_counterexample :
    poolKeys demoPoolScene
      ≠ some [s2b "E", s2b "JPSTransformationComponent", s2b "a,1f", s2b "Boolean", s2b "Active"]
    ∧ (SceneFile.buildStringsAndMap demoPoolScene).map
        (fun st => (st.2.lookup (s2b "a,1f")).isSome) = some false := by
  refine ⟨by decide, by decide⟩

/-- C3 (amended): the scenario scene pools exactly the strings `"E"`,
`"JPSTransformationComponent"`, `"0,0,a,1f"`, `"Active"`, `"Boolean"`,
in that insertion order (at pool offsets 4, 8, 40, 52, 64 with the
`start_offset = 4` convention), and the pool bytes are their JPS forms
in the same order. -/
theorem c3_pool_insertion_order :
    (SceneFile.buildStringsAndMap demoPoolScene).map (fun st => st.2)
      = some [(s2b "E", 4), (s2b "JPSTransformationComponent", 8), (s2b "0,0,a,1f", 40),
              (s2b "Active", 52), (s2b "Boolean", 64)]
    ∧ (SceneFile.buildStringsAndMap demoPoolScene).map (fun st => st.1)
      = some ((((((⟨.BIG, .OVERWRITE, [], 0⟩ : FM).wStrJps (s2b "E")).wStrJps
          (s2b "JPSTransformationComponent")).wStrJps (s2b "0,0,a,1f")).wStrJps
          (s2b "Active")).wStrJps (s2b "Boolean")).data := by
  refine ⟨by decide, by decide⟩

theorem lookup_isNone_iff (m : List (List Nat × Nat)) (s : List Nat) :
    (m.lookup s).isNone = true ↔ s ∉ m.map Prod.fst := by
  induction m with
  | nil => simp
  | cons a t ih =>
      by_cases hk : s = a.1
      · simp [List.lookup, hk]
      · simp only [List.lookup, beq_eq_false_iff_ne.mpr hk, List.map_cons, List.mem_cons]
        simp [ih, hk]

theorem poolEntries_count (files : List VirtualFile) :
    ∀ (fseen nseen : List (List Nat)) (s : List Nat),
      ((Packfile.poolEntries files fseen nseen).count (true, s)
        = if s ∈ files.map (fun vf => vf.splitPath.1) ∧ s ∉ fseen then 1 else 0)
      ∧ ((Packfile.poolEntries files fseen nseen).count (false, s)
        = if s ∈ files.map (fun vf => vf.splitPath.2) ∧ s ∉ nseen then 1 else 0) := by
  induction files with
  | nil => simp [Packfile.poolEntries]
  | cons vf rest ih =>
      intro fseen nseen s
      constructor
      · rw [Packfile.poolEntries, List.count_append, List.count_append,
          (ih _ _ s).1]
        by_cases h1 : vf.splitPath.1 ∈ fseen <;>
          by_cases hs : s = vf.splitPath.1 <;>
          by_cases h2 : vf.splitPath.2 ∈ nseen <;>
          simp [h1, hs, h2, List.count_cons, List.mem_append] <;>
          split_ifs <;> simp_all <;> omega
      · rw [Packfile.poolEntries, List.count_append, List.count_append,
          (ih _ _ s).2]
        by_cases h2 : vf.splitPath.2 ∈ nseen <;>
          by_cases hs : s = vf.splitPath.2 <;>
          by_cases h1 : vf.splitPath.1 ∈ fseen <;>
          simp [h1, hs, h2, List.count_cons, List.mem_append] <;>
          split_ifs <;> simp_all <;> omega

theorem buildPathPartition_data (files : List VirtualFile) :
    ∀ (fm : FM) (fo fi : List (List Nat × Nat)), fm.mode = .OVERWRITE →
      fm.pos = fm.data.length →
      (Packfile.buildPathPartition files fm fo fi).1.data
        = fm.data ++ (List.flatten
            ((Packfile.poolEntries files (fo.map Prod.fst) (fi.map Prod.fst)).map
              (fun e => e.2 ++ [0]))) := by
  induction files with
  | nil => intro fm fo fi _ _; simp [Packfile.buildPathPartition, Packfile.poolEntries]
  | cons vf rest ih =>
      intro fm fo fi hm hp
      have hA := lookup_isNone_iff fo vf.splitPath.1
      have hB := lookup_isNone_iff fi vf.splitPath.2
      rw [Packfile.buildPathPartition, Packfile.poolEntries]
      by_cases h1 : vf.splitPath.1 ∈ fo.map Prod.fst <;>
        by_cases h2 : vf.splitPath.2 ∈ fi.map Prod.fst
      · have e1 : (fo.lookup vf.splitPath.1).isNone = false := by
          rcases Bool.eq_false_or_eq_true ((fo.lookup vf.splitPath.1).isNone) with h | h
          · exact absurd h1 (hA.mp h)
          · exact h
        have e2 : (fi.lookup vf.splitPath.2).isNone = false := by
          rcases Bool.eq_false_or_eq_true ((fi.lookup vf.splitPath.2).isNone) with h | h
          · exact absurd h2 (hB.mp h)
          · exact h
        simp only [e1, e2, h1, h2, if_true, if_false, Bool.false_eq_true, if_neg, if_pos,
          not_false_eq_true]
        rw [ih fm fo fi hm hp]
        simp
      · have e1 : (fo.lookup vf.splitPath.1).isNone = false := by
          rcases Bool.eq_false_or_eq_true ((fo.lookup vf.splitPath.1).isNone) with h | h
          · exact absurd h1 (hA.mp h)
          · exact h
        have e2 : (fi.lookup vf.splitPath.2).isNone = true := hB.mpr h2
        simp only [e1, e2, h1, h2, if_true, if_false, Bool.false_eq_true, if_neg, if_pos,
          not_false_eq_true]
        rw [FM.wStrNull_at_end fm vf.splitPath.2 hm hp, ih]
        · simp [List.append_assoc]
        · exact hm
        · simp [hp]; omega
      · have e1 : (fo.lookup vf.splitPath.1).isNone = true := hA.mpr h1
        have e2 : (fi.lookup vf.splitPath.2).isNone = false := by
          rcases Bool.eq_false_or_eq_true ((fi.lookup vf.splitPath.2).isNone) with h | h
          · exact absurd h2 (hB.mp h)
          · exact h
        simp only [e1, e2, h1, h2, if_true, if_false, Bool.false_eq_true, if_neg, if_pos,
          not_false_eq_true]
        rw [FM.wStrNull_at_end fm vf.splitPath.1 hm hp, ih]
        · simp [List.append_assoc]
        · exact hm
        · simp [hp]; omega
      · have e1 : (fo.lookup vf.splitPath.1).isNone = true := hA.mpr h1
        have e2 : (fi.lookup vf.splitPath.2).isNone = true := hB.mpr h2
        simp only [e1, e2, h1, h2, if_true, if_false, Bool.false_eq_true, if_neg, if_pos,
          not_false_eq_true]
        rw [FM.wStrNull_at_end fm vf.splitPath.1 hm hp, FM.wStrNull_at_end, ih]
        · simp [List.append_assoc]
        · exact hm
        · simp [hp]; omega
        · exact hm
        · simp [hp]; omega

/-- C7: in every packed Packfile, each distinct folder string and each
distinct filename string appears exactly once in the persisted path
pool (dedup is per role: the count of each folder-role entry is 1 for
strings that occur as a folder and 0 otherwise, and likewise for
filename-role entries, so a string used in both roles occupies two
entries); the pool bytes written by `pack` are exactly these entries,
NUL-terminated, in insertion order.  In particular, packing
`folder/a.txt` and `folder/b.txt` gives `num_files == 2`, pool bytes
`"folder\0a.txt\0b.txt\0"`, both records carrying folder offset 0, and
distinct filename offsets 7 and 13 (the concrete entries are
uncompressed, so the external zlib argument — instantiated with the
identity — is never consulted, as the fourth conjunct states). -/
theorem c7_pool_dedup :
    (∀ (files : List VirtualFile) (s : List Nat),
        ((Packfile.poolEntries files [] []).count (true, s)
          = if s ∈ files.map (fun vf => vf.splitPath.1) then 1 else 0)
        ∧ ((Packfile.poolEntries files [] []).count (false, s)
          = if s ∈ files.map (fun vf => vf.splitPath.2) then 1 else 0))
    ∧ (∀ files : List VirtualFile,
        (Packfile.buildPathPartition files ⟨.LITTLE, .OVERWRITE, [], 0⟩ [] []).1.data
          = List.flatten ((Packfile.poolEntries files [] []).map (fun e => e.2 ++ [0])))
    ∧ ((Packfile.pack (fun _ data => data) demoPak .LITTLE).map (fun bs =>
            ((bs.drop 32).take 4, (bs.drop 84).take 19,
             (bs.drop 48).take 4, (bs.drop 72).take 4,
             (bs.drop 56).take 4, (bs.drop 80).take 4))
          = some (u32le 2, s2b "folder" ++ [0] ++ (s2b "a.txt" ++ [0] ++ (s2b "b.txt" ++ [0])),
              u32le 0, u32le 0, u32le 7, u32le 13))
    ∧ (∀ (zlib : Nat → List Nat → List Nat) (vf : VirtualFile), vf.compress = false →
        vf.compressedData zlib = vf.data) := by
  refine ⟨fun files s => ?_, fun files => ?_, rfl,
    fun zlib vf hc => by simp [VirtualFile.compressedData, hc]⟩
  · refine ⟨?_, ?_⟩
    · rw [(poolEntries_count files [] [] s).1]
      simp
    · rw [(poolEntries_count files [] [] s).2]
      simp
  · simpa using buildPathPartition_data files ⟨.LITTLE, .OVERWRITE, [], 0⟩ [] [] rfl rfl

/-- C6 witness: the three detection outcomes at the spec's concrete
prefixes. -/
theorem c6_packfile_magic_witness :
    Packfile.detectEndian [0x50, 0x41, 0x4B, 0x20] = some .LITTLE
    ∧ Packfile.detectEndian [0x20, 0x4B, 0x41, 0x50] = some .BIG
    ∧ Packfile.detectEndian [0xDE, 0xAD, 0xBE, 0xEF] = none := by
  refine ⟨(c6_packfile_magic _ (by decide)).1 (by decide),
          (c6_packfile_magic _ (by decide)).2.1 (by decide),
          (c6_packfile_magic _ (by decide)).2.2 (by decide) (by decide)⟩

/-! ### C4: ID round-trip -/

theorem toHexUpperGo_congr :
    ∀ (n f1 f2 : Nat), n ≤ f1 → n ≤ f2 → toHexUpperGo f1 n = toHexUpperGo f2 n := by
  intro n
  induction n using Nat.strong_induction_on with
  | _ n ih =>
    intro f1 f2 h1 h2
    match f1, f2 with
    | 0, 0 => rfl
    | 0, g2 + 1 =>
        have hn : n = 0 := Nat.le_zero.mp h1
        subst hn
        simp [toHexUpperGo]
    | g1 + 1, 0 =>
        have hn : n = 0 := Nat.le_zero.mp h2
        subst hn
        simp [toHexUpperGo]
    | g1 + 1, g2 + 1 =>
        by_cases hn : n = 0
        · subst hn; simp [toHexUpperGo]
        · have hlt : n / 16 < n := Nat.div_lt_self (Nat.pos_of_ne_zero hn) (by omega)
          simp only [toHexUpperGo, if_neg hn]
          rw [ih (n / 16) hlt g1 g2 (by omega) (by omega)]

theorem toHexUpperCore_rec (n : Nat) :
    toHexUpperCore n
      = if n = 0 then [] else toHexUpperCore (n / 16) ++ [hexUpperDigit (n % 16)] := by
  by_cases hn : n = 0
  · subst hn; rfl
  · obtain ⟨m, rfl⟩ := Nat.exists_eq_succ_of_ne_zero hn
    simp only [toHexUpperCore, toHexUpperGo, if_neg hn]
    rw [toHexUpperGo_congr ((m + 1) / 16) m ((m + 1) / 16)
      (by omega) (le_refl _)]

theorem hexFixed_length (w n : Nat) : (hexFixed w n).length = w := by
  induction w generalizing n with
  | zero => rfl
  | succ w ih => simp [hexFixed, ih]

theorem hexFixed_zero (w : Nat) : hexFixed w 0 = List.replicate w 48 := by
  induction w with
  | zero => rfl
  | succ w ih => simp [hexFixed, ih, List.replicate_succ', hexUpperDigit]

theorem toHexUpperCore_length : ∀ n w : Nat, n < 16 ^ w → (toHexUpperCore n).length ≤ w := by
  intro n
  induction n using Nat.strong_induction_on with
  | _ n ih =>
    intro w hw
    by_cases hn : n = 0
    · subst hn; simp [toHexUpperCore, toHexUpperGo]
    · match w with
      | 0 => omega
      | w + 1 =>
          rw [toHexUpperCore_rec, if_neg hn]
          have hlt : n / 16 < n := Nat.div_lt_self (Nat.pos_of_ne_zero hn) (by omega)
          have hdiv : n / 16 < 16 ^ w := by
            rw [Nat.div_lt_iff_lt_mul (by omega)]
            calc n < 16 ^ (w + 1) := hw
            _ = 16 ^ w * 16 := by rw [Nat.pow_succ]
          have := ih (n / 16) hlt w hdiv
          simp only [List.length_append, List.length_cons, List.length_nil]
          omega

theorem toHexUpperCore_pad :
    ∀ (n w : Nat), n < 16 ^ w →
      List.replicate (w - (toHexUpperCore n).length) 48 ++ toHexUpperCore n = hexFixed w n := by
  intro n
  induction n using Nat.strong_induction_on with
  | _ n ih =>
    intro w hw
    by_cases hn : n = 0
    · subst hn
      simp [toHexUpperCore, toHexUpperGo, hexFixed_zero]
    · match w with
      | 0 => omega
      | w + 1 =>
          have hlt : n / 16 < n := Nat.div_lt_self (Nat.pos_of_ne_zero hn) (by omega)
          have hdiv : n / 16 < 16 ^ w := by
            rw [Nat.div_lt_iff_lt_mul (by omega)]
            calc n < 16 ^ (w + 1) := hw
            _ = 16 ^ w * 16 := by rw [Nat.pow_succ]
          have hlen := toHexUpperCore_length (n / 16) w hdiv
          rw [toHexUpperCore_rec, if_neg hn]
          simp only [List.length_append, List.length_cons, List.length_nil]
          rw [show w + 1 - ((toHexUpperCore (n / 16)).length + (0 + 1))
              = w - (toHexUpperCore (n / 16)).length by omega]
          rw [show List.replicate (w - (toHexUpperCore (n / 16)).length) 48
                ++ (toHexUpperCore (n / 16) ++ [hexUpperDigit (n % 16)])
              = (List.replicate (w - (toHexUpperCore (n / 16)).length) 48
                ++ toHexUpperCore (n / 16)) ++ [hexUpperDigit (n % 16)] by simp]
          rw [ih (n / 16) hlt w hdiv]
          rfl

theorem toHexUpper_pad (n w : Nat) (hw : 0 < w) (h : n < 16 ^ w) :
    List.replicate (w - (toHexUpper n).length) 48 ++ toHexUpper n = hexFixed w n := by
  by_cases hn : n = 0
  · subst hn
    simp only [toHexUpper, if_pos rfl, hexFixed_zero, List.length_singleton]
    rw [show w = (w - 1) + 1 by omega, List.replicate_succ']
    simp
  · rw [show toHexUpper n = toHexUpperCore n by simp [toHexUpper, hn]]
    exact toHexUpperCore_pad n w h

theorem hexFixed_pairs : ∀ (k n : Nat), hexFixed (2 * k) n = (hexPairs k n).flatten := by
  intro k
  induction k with
  | zero => intro n; rfl
  | succ k ih =>
      intro n
      rw [show 2 * (k + 1) = (2 * k + 1) + 1 by omega]
      show hexFixed (2 * k + 1) (n / 16) ++ [hexUpperDigit (n % 16)] = _
      show (hexFixed (2 * k) (n / 16 / 16) ++ [hexUpperDigit (n / 16 % 16)])
          ++ [hexUpperDigit (n % 16)] = _
      rw [Nat.div_div_eq_div_mul]
      rw [show (16 : Nat) * 16 = 256 by norm_num]
      rw [ih (n / 256)]
      simp [hexPairs]

theorem hexPairs_shape :
    ∀ (k n : Nat) (p : List Nat), p ∈ hexPairs k n →
      ∃ v1 v2, v1 < 16 ∧ v2 < 16 ∧ p = [hexUpperDigit v1, hexUpperDigit v2] := by
  intro k
  induction k with
  | zero => intro n p hp; cases hp
  | succ k ih =>
      intro n p hp
      rw [hexPairs] at hp
      rcases List.mem_append.mp hp with h | h
      · exact ih (n / 256) p h
      · refine ⟨n / 16 % 16, n % 16, Nat.mod_lt _ (by omega), Nat.mod_lt _ (by omega), ?_⟩
        simpa using h

theorem hexPairs_length (k n : Nat) : (hexPairs k n).length = k := by
  induction k generalizing n with
  | zero => rfl
  | succ k ih => simp [hexPairs, ih]

theorem slice_pairs :
    ∀ (ps : List (List Nat)), (∀ p ∈ ps, p.length = 2) →
      (List.range ps.length).map (fun i => ((ps.flatten).drop (2 * i)).take 2) = ps := by
  intro ps
  induction ps with
  | nil => intro _; rfl
  | cons p t ih =>
      intro hlen
      have hp : p.length = 2 := hlen p (by simp)
      rw [List.length_cons, List.range_succ_eq_map, List.map_cons, List.map_map]
      congr 1
      · simp [List.take_left' hp]
      · rw [show ((fun i => (List.take 2 (List.drop (2 * i) (p :: t).flatten))) ∘ Nat.succ)
            = (fun i => List.take 2 (List.drop (2 * i) t.flatten)) from ?_]
        · exact ih (fun q hq => hlen q (by simp [hq]))
        · funext i
          simp only [Function.comp_apply]
          rw [show 2 * Nat.succ i = 2 + 2 * i by omega]
          rw [show (p :: t).flatten = p ++ t.flatten from rfl]
          rw [← List.drop_drop, List.drop_left' hp]

theorem map_intersperse (f : Nat → Nat) (sep : List Nat) :
    ∀ xs : List (List Nat),
      (List.intersperse sep xs).map (List.map f)
        = List.intersperse (sep.map f) (xs.map (List.map f))
  | [] => rfl
  | [x] => rfl
  | x :: y :: t => by
      simp only [List.intersperse_cons₂, List.map_cons]
      rw [map_intersperse f sep (y :: t)]
      rfl

theorem map_intercalate (f : Nat → Nat) (sep : List Nat) (xs : List (List Nat)) :
    (List.intercalate sep xs).map f = List.intercalate (sep.map f) (xs.map (List.map f)) := by
  simp only [List.intercalate, List.map_flatten, map_intersperse f sep xs]

theorem lower_digit_ne_comma : ∀ v : Nat, v < 16 → toLowerByte (hexUpperDigit v) ≠ 44 := by
  decide

theorem parse_lower_digit :
    ∀ v : Nat, v < 16 → ID.parseHexDigit? (toLowerByte (hexUpperDigit v)) = some v := by
  decide

theorem toString_eq_pairs (id : Nat) (h : id < 2 ^ 128) :
    ID.toString id 16
      = List.intercalate [44] ((hexPairs 16 id).map (List.map toLowerByte)) := by
  have h16 : id < 16 ^ 32 := by
    rw [show (16 : Nat) ^ 32 = 2 ^ 128 by norm_num]
    exact h
  rw [ID.toString]
  rw [show (16 : Nat) * 2 = 32 by norm_num]
  rw [toHexUpper_pad id 32 (by omega) h16]
  rw [show (32 : Nat) = 2 * 16 by norm_num, hexFixed_pairs 16 id]
  have hslice := slice_pairs (hexPairs 16 id) (fun p hp => by
    obtain ⟨v1, v2, _, _, rfl⟩ := hexPairs_shape 16 id p hp
    rfl)
  rw [hexPairs_length] at hslice
  rw [hslice]
  rw [map_intercalate]
  rfl

theorem lowPairs_comma_free (id : Nat) :
    ∀ p ∈ (hexPairs 16 id).map (List.map toLowerByte), (44 : Nat) ∉ p := by
  intro p hp
  obtain ⟨q, hq, rfl⟩ := List.mem_map.mp hp
  obtain ⟨v1, v2, hv1, hv2, rfl⟩ := hexPairs_shape 16 id q hq
  intro hmem
  simp only [List.map_cons, List.map_nil, List.mem_cons, List.not_mem_nil] at hmem
  rcases hmem with h | h | h
  · exact lower_digit_ne_comma v1 hv1 h.symm
  · exact lower_digit_ne_comma v2 hv2 h.symm
  · exact h

/-- `to_string_no_leaders` on a full-width string: split, strip one
leading zero per group, rejoin. -/
theorem toStringNoLeaders_eq (id : Nat) (h : id < 2 ^ 128) :
    ID.toStringNoLeaders id 16
      = List.intercalate [44]
          (((hexPairs 16 id).map (List.map toLowerByte)).map
            (fun p => if p.head? = some 48 then p.tail else p)) := by
  rw [ID.toStringNoLeaders, toString_eq_pairs id h]
  have hsplit : List.splitOn 44 ([44].intercalate ((hexPairs 16 id).map (List.map toLowerByte)))
      = (hexPairs 16 id).map (List.map toLowerByte) :=
    List.splitOn_intercalate _ _ (lowPairs_comma_free id) (by
      intro hnil
      have := congrArg List.length hnil
      simp [hexPairs_length] at this)
  rw [hsplit]

theorem strip_pad_pair (p : List Nat) (hp : p.length = 2) :
    List.replicate (2 - (if p.head? = some 48 then p.tail else p).length) 48
      ++ (if p.head? = some 48 then p.tail else p) = p := by
  match p, hp with
  | [a, b], _ =>
      by_cases ha : a = 48
      · subst ha; simp
      · rw [if_neg (by simp [ha])]
        simp

theorem stripped_comma_free (id : Nat) :
    ∀ p ∈ ((hexPairs 16 id).map (List.map toLowerByte)).map
        (fun p => if p.head? = some 48 then p.tail else p), (44 : Nat) ∉ p := by
  intro p hp
  obtain ⟨q, hq, rfl⟩ := List.mem_map.mp hp
  have hfree := lowPairs_comma_free id q hq
  intro hmem
  exact hfree (by
    by_cases hh : q.head? = some 48
    · rw [if_pos hh] at hmem
      exact List.mem_of_mem_tail hmem
    · rw [if_neg hh] at hmem
      exact hmem)

theorem parseHexF_fold_pairs :
    ∀ (k n a : Nat),
      List.foldl ID.parseHexF (some a) (((hexPairs k n).map (List.map toLowerByte)).flatten)
        = some (a * 256 ^ k + n % 256 ^ k) := by
  intro k
  induction k with
  | zero => intro n a; simp [hexPairs, Nat.mod_one]
  | succ k ih =>
      intro n a
      rw [hexPairs, List.map_append, List.flatten_append, List.foldl_append]
      rw [ih (n / 256) a]
      have hv1 : n / 16 % 16 < 16 := Nat.mod_lt _ (by omega)
      have hv2 : n % 16 < 16 := Nat.mod_lt _ (by omega)
      simp only [List.map_cons, List.map_nil, List.flatten_cons, List.flatten_nil,
        List.append_nil, List.foldl_cons, List.foldl_nil]
      rw [show ID.parseHexF (some (a * 256 ^ k + n / 256 % 256 ^ k))
            (toLowerByte (hexUpperDigit (n / 16 % 16)))
          = some ((a * 256 ^ k + n / 256 % 256 ^ k) * 16 + n / 16 % 16) by
        simp [ID.parseHexF, parse_lower_digit _ hv1]]
      rw [show ID.parseHexF (some ((a * 256 ^ k + n / 256 % 256 ^ k) * 16 + n / 16 % 16))
            (toLowerByte (hexUpperDigit (n % 16)))
          = some (((a * 256 ^ k + n / 256 % 256 ^ k) * 16 + n / 16 % 16) * 16 + n % 16) by
        simp [ID.parseHexF, parse_lower_digit _ hv2]]
      congr 1
      have hdecomp : n % 256 ^ (k + 1) = 256 * (n / 256 % 256 ^ k) + n % 256 := by
        conv_lhs => rw [show (256 : Nat) ^ (k + 1) = 256 * 256 ^ k by ring,
          ← Nat.div_add_mod (n % (256 * 256 ^ k)) 256]
        rw [Nat.mod_mul_right_div_self, Nat.mod_mod_of_dvd _ (dvd_mul_right 256 (256 ^ k))]
      have hbyte : n / 16 % 16 * 16 + n % 16 = n % 256 := by omega
      rw [hdecomp, show a * 256 ^ (k + 1) = a * 256 ^ k * 256 by ring]
      generalize a * 256 ^ k = t
      generalize n / 256 % 256 ^ k = c
      omega

theorem lowPairs_flatten_length (k n : Nat) :
    (((hexPairs k n).map (List.map toLowerByte)).flatten).length = 2 * k := by
  induction k generalizing n with
  | zero => rfl
  | succ k ih =>
      rw [hexPairs, List.map_append, List.flatten_append, List.length_append, ih (n / 256)]
      simp
      omega

/-- C4: `ID::from_string` inverts `ID::to_string_no_leaders(·, 16)` on
every `u128` value. -/
theorem c4_id_roundtrip (id : Nat) (h : id < 2 ^ 128) :
    ID.fromString (ID.toStringNoLeaders id 16) = some id := by
  rw [toStringNoLeaders_eq id h, ID.fromString]
  have hnil : ((hexPairs 16 id).map (List.map toLowerByte)).map
      (fun p => if p.head? = some 48 then p.tail else p) ≠ [] := by
    intro hcontra
    have := congrArg List.length hcontra
    simp [hexPairs_length] at this
  have hsplit : List.splitOn 44
      ([44].intercalate (((hexPairs 16 id).map (List.map toLowerByte)).map
        (fun p => if p.head? = some 48 then p.tail else p)))
      = ((hexPairs 16 id).map (List.map toLowerByte)).map
        (fun p => if p.head? = some 48 then p.tail else p) :=
    List.splitOn_intercalate _ _ (stripped_comma_free id) hnil
  rw [hsplit]
  have hpad : (((hexPairs 16 id).map (List.map toLowerByte)).map
        (fun p => if p.head? = some 48 then p.tail else p)).map
          (fun p => List.replicate (2 - p.length) 48 ++ p)
      = (hexPairs 16 id).map (List.map toLowerByte) := by
    rw [List.map_map]
    refine List.map_congr_left ?_ |>.trans (List.map_id _)
    intro q hq
    obtain ⟨p, hp, rfl⟩ := List.mem_map.mp hq
    obtain ⟨v1, v2, _, _, rfl⟩ := hexPairs_shape 16 id p hp
    exact strip_pad_pair _ rfl
  rw [hpad]
  rw [show ID.parseHex? (((hexPairs 16 id).map (List.map toLowerByte)).flatten)
      = some (0 * 256 ^ 16 + id % 256 ^ 16) from parseHexF_fold_pairs 16 id 0]
  have hid : id % 256 ^ 16 = id := Nat.mod_eq_of_lt (by
    rw [show (256 : Nat) ^ 16 = 2 ^ 128 by norm_num]
    exact h)
  have hne : (((hexPairs 16 id).map (List.map toLowerByte)).flatten) ≠ [] := by
    intro hcontra
    have := congrArg List.length hcontra
    rw [lowPairs_flatten_length] at this
    simp at this
  simp [hid, hne]
  exact ⟨Nat.mod_lt _ (by norm_num), lt_of_lt_of_le h (by norm_num)⟩

theorem c4_id_roundtrip_witness :
    2591 < 2 ^ 128 ∧ ID.fromString (ID.toStringNoLeaders 2591 16) = some 2591 :=
  ⟨by norm_num, c4_id_roundtrip 2591 (by norm_num)⟩

/-! ### C5 and C9: DCT placeholder records and text region -/

/-- C9 counterexample: for the sample `demoDct` the record region (which
starts right after the 32-byte header and holds two 12-byte dialog
records) ends at 56, yet the packed file is only 76 bytes long — so no
text can begin at `record_region_end + 50 = 106`; the single text
`"hi\0"` actually begins at `record_region_end + 17 = 73`. -/
theorem c9_counterexample :
    (DCT.pack demoDct).length = 76 ∧
    (DCT.pack demoDct).drop (56 + 17) = s2b "hi" ++ [0] ∧
    (DCT.pack demoDct).length < 56 + 50 := by
  refine ⟨rfl, rfl, ?_⟩
  rw [show (DCT.pack demoDct).length = 76 from rfl]
  norm_num

/-- C9 (amended): in `DCT::pack` the text region begins at absolute
offset `end_offset + 50 = record_region_end + 17` (for the 4-byte magic:
`(12·D + 8·F − 1) + 50 = (32 + 12·D + 8·F) + 17`), not
`record_region_end + 50`: the first non-placeholder dialog text lands
exactly there. -/
theorem c9_text_region_start (d : DCT) (e : DialogEntry) (rest : List DialogEntry)
    (hm : d.magic.length = 4) (hd : d.dialogEntries = e :: rest) (hk : e.hashedKey ≠ 0)
    (hsz : 12 * d.dialogEntries.length + 8 * d.footerEntries.length < 2 ^ 32) :
    d.endOffset + 50
      = 32 + 12 * d.dialogEntries.length + 8 * d.footerEntries.length + 17 ∧
    ∀ i, i < e.text.length + 1 →
      (DCT.pack d).getD
          (32 + 12 * d.dialogEntries.length + 8 * d.footerEntries.length + 17 + i) 0
        = (e.text ++ [0]).getD i 0 := by
  have hD1 : 1 ≤ d.dialogEntries.length := by rw [hd]; simp
  have hE : d.endOffset = 12 * d.dialogEntries.length + 8 * d.footerEntries.length - 1 :=
    DCT.endOffset_eq d hD1 hsz
  have hDr : d.dialogEntries.length = rest.length + 1 := by rw [hd]; simp
  refine ⟨by omega, ?_⟩
  intro i hi
  have hidx : 32 + 12 * d.dialogEntries.length + 8 * d.footerEntries.length + 17 + i
      = d.endOffset + 50 + i := by omega
  rw [DCT.pack_eq, DCT.headerFM_pos d hm, hidx, hd]
  have hclo : 32 + 12 + 12 * rest.length ≤ d.endOffset + 50 := by omega
  have hft := DCT.packDialogLoop_first_text rest (DCT.headerFM d) 32 (d.endOffset + 50) e hk
    (DCT.headerFM_mode d) (DCT.headerFM_endian d) (DCT.headerFM_length d hm)
    (DCT.headerFM_pos d hm) hclo
  rcases Nat.eq_zero_or_pos d.footerEntries.length with hf | hf
  · rw [if_neg (by omega)]
    exact hft.1 i hi
  · rw [if_pos hf]
    have hpos1 : (DCT.packDialogLoop (e :: rest) (DCT.headerFM d) 32
        (d.endOffset + 50)).1.pos = 32 + 12 * (e :: rest).length :=
      DCT.packDialogLoop_pos _ _ _ _ (DCT.headerFM_pos d hm)
    have hmode1 : (DCT.packDialogLoop (e :: rest) (DCT.headerFM d) 32
        (d.endOffset + 50)).1.mode = WriteMode.OVERWRITE :=
      (DCT.packDialogLoop_mode _ _ _ _).trans (DCT.headerFM_mode d)
    have hclo2 : d.endOffset + 50 + e.text.length + 1
        ≤ (DCT.packDialogLoop (e :: rest) (DCT.headerFM d) 32 (d.endOffset + 50)).2.2 :=
      hft.2
    have hpf : (DCT.packFooterLoop d.footerEntries
        (DCT.packDialogLoop (e :: rest) (DCT.headerFM d) 32 (d.endOffset + 50)).1
        (DCT.packDialogLoop (e :: rest) (DCT.headerFM d) 32 (d.endOffset + 50)).2.2).pos
        = 32 + 12 * (e :: rest).length + 8 * d.footerEntries.length := by
      rw [DCT.packFooterLoop_pos, hpos1]
    have hmf : (DCT.packFooterLoop d.footerEntries
        (DCT.packDialogLoop (e :: rest) (DCT.headerFM d) 32 (d.endOffset + 50)).1
        (DCT.packDialogLoop (e :: rest) (DCT.headerFM d) 32 (d.endOffset + 50)).2.2).mode
        = WriteMode.OVERWRITE :=
      (DCT.packFooterLoop_mode _ _ _).trans hmode1
    have hLc : (e :: rest).length = rest.length + 1 := by simp
    rw [FM.wU32_getD_outside _ _ _
      (by simp only [FM.wU32_mode, FM.write_mode]; exact hmf)
      (Or.inr (by rw [FM.wU32_pos, FM.wU32_pos, FM.write_pos, hpf, hLc]; simp; omega))]
    rw [FM.wU32_getD_outside _ _ _
      (by simp only [FM.wU32_mode, FM.write_mode]; exact hmf)
      (Or.inr (by rw [FM.wU32_pos, FM.write_pos, hpf, hLc]; simp; omega))]
    rw [FM.wU32_getD_outside _ _ _
      (by simp only [FM.write_mode]; exact hmf)
      (Or.inr (by rw [FM.write_pos, hpf, hLc]; simp; omega))]
    rw [FM.write_getD_outside _ _ _ hmf
      (Or.inr (by rw [hpf, hLc]; simp; omega))]
    rw [DCT.packFooterLoop_frame _ _ _ _ hmode1
      (by rw [hpos1, hLc]; omega)
      (by omega)
      (Or.inr (by rw [hpos1, hLc]; omega))]
    exact hft.1 i hi

theorem c9_text_region_start_witness :
    demoDct2.magic.length = 4 ∧
    (DCT.pack demoDct2).getD (32 + 12 * 1 + 8 * 1 + 17 + 0) 0 = (s2b "hi" ++ [0]).getD 0 0 :=
  ⟨rfl, (c9_text_region_start demoDct2 ⟨0xDEADBEEF, s2b "hi"⟩ [] rfl rfl
    (by norm_num) (by decide)).2 0 (by norm_num)⟩

/-- C5: a dialog entry with `hashed_key == 0` (in any list position `j`)
is encoded by `DCT::pack` as three consecutive zero `u32`s filling its
12-byte record slot at offset `32 + 12·j`; the reader's zero-key branch
skips the remaining 8 record bytes without dereferencing the offset
field (the 8 bytes after the zero key are arbitrary `junk`, and the
continuation state does not depend on them); and the placeholder
round-trips through `pack`/`from_binary` in the same list position, as
`DialogEntry{0, ""}`. -/
theorem c5_zero_key_placeholder :
    (∀ (d : DCT) (j : Nat) (hj : j < d.dialogEntries.length),
        d.magic.length = 4 →
        12 * d.dialogEntries.length + 8 * d.footerEntries.length < 2 ^ 32 →
        (d.dialogEntries.get ⟨j, hj⟩).hashedKey = 0 →
        ∀ i, i < 12 → (DCT.pack d).getD (32 + 12 * j + i) 0 = 0) ∧
    (∀ (n : Nat) (pre junk post : List Nat), junk.length = 8 →
        DCT.unpackDialogLoop (n + 1)
            ⟨.LITTLE, .OVERWRITE, pre ++ 0 :: 0 :: 0 :: 0 :: (junk ++ post), pre.length⟩
          = (DCT.unpackDialogLoop n
              ⟨.LITTLE, .OVERWRITE, pre ++ 0 :: 0 :: 0 :: 0 :: (junk ++ post),
                pre.length + 12⟩).map (fun p => (⟨0, []⟩ :: p.1, p.2))) ∧
    DCT.fromBinary (DCT.pack demoDct) = some demoDct := by
  refine ⟨?_, ?_, ?_⟩
  · intro d j hj hm hsz hk i hi
    have hD1 : 1 ≤ d.dialogEntries.length := by omega
    have hE : d.endOffset = 12 * d.dialogEntries.length + 8 * d.footerEntries.length - 1 :=
      DCT.endOffset_eq d hD1 hsz
    rw [DCT.pack_eq, DCT.headerFM_pos d hm]
    have hslot := DCT.packDialogLoop_slot_zeros d.dialogEntries (DCT.headerFM d) 32
      (d.endOffset + 50) j hj (DCT.headerFM_mode d) (DCT.headerFM_endian d)
      (by omega) hk i hi
    rcases Nat.eq_zero_or_pos d.footerEntries.length with hf | hf
    · rw [if_neg (by omega)]
      exact hslot
    · rw [if_pos hf]
      have hpos1 : (DCT.packDialogLoop d.dialogEntries (DCT.headerFM d) 32
          (d.endOffset + 50)).1.pos = 32 + 12 * d.dialogEntries.length :=
        DCT.packDialogLoop_pos _ _ _ _ (DCT.headerFM_pos d hm)
      have hmode1 : (DCT.packDialogLoop d.dialogEntries (DCT.headerFM d) 32
          (d.endOffset + 50)).1.mode = WriteMode.OVERWRITE :=
        (DCT.packDialogLoop_mode _ _ _ _).trans (DCT.headerFM_mode d)
      have hcl : d.endOffset + 50
          ≤ (DCT.packDialogLoop d.dialogEntries (DCT.headerFM d) 32 (d.endOffset + 50)).2.2 :=
        DCT.packDialogLoop_clo_le _ _ _ _
      have hpf : (DCT.packFooterLoop d.footerEntries
          (DCT.packDialogLoop d.dialogEntries (DCT.headerFM d) 32 (d.endOffset + 50)).1
          (DCT.packDialogLoop d.dialogEntries (DCT.headerFM d) 32 (d.endOffset + 50)).2.2).pos
          = 32 + 12 * d.dialogEntries.length + 8 * d.footerEntries.length := by
        rw [DCT.packFooterLoop_pos, hpos1]
      have hmf : (DCT.packFooterLoop d.footerEntries
          (DCT.packDialogLoop d.dialogEntries (DCT.headerFM d) 32 (d.endOffset + 50)).1
          (DCT.packDialogLoop d.dialogEntries (DCT.headerFM d) 32 (d.endOffset + 50)).2.2).mode
          = WriteMode.OVERWRITE :=
        (DCT.packFooterLoop_mode _ _ _).trans hmode1
      rw [FM.wU32_getD_outside _ _ _
        (by simp only [FM.wU32_mode, FM.write_mode]; exact hmf)
        (Or.inl (by rw [FM.wU32_pos, FM.wU32_pos, FM.write_pos, hpf]; simp; omega))]
      rw [FM.wU32_getD_outside _ _ _
        (by simp only [FM.wU32_mode, FM.write_mode]; exact hmf)
        (Or.inl (by rw [FM.wU32_pos, FM.write_pos, hpf]; simp; omega))]
      rw [FM.wU32_getD_outside _ _ _
        (by simp only [FM.write_mode]; exact hmf)
        (Or.inl (by rw [FM.write_pos, hpf]; simp; omega))]
      rw [FM.write_getD_outside _ _ _ hmf
        (Or.inl (by rw [hpf]; omega))]
      rw [DCT.packFooterLoop_frame _ _ _ _ hmode1
        (by rw [hpos1]; omega)
        (by omega)
        (Or.inl (by rw [hpos1]; omega))]
      exact hslot
  · intro n pre junk post hj8
    have hlen : (pre ++ 0 :: 0 :: 0 :: 0 :: (junk ++ post)).length
        = pre.length + 12 + post.length := by
      simp [hj8]
      omega
    have hr : (⟨.LITTLE, .OVERWRITE, pre ++ 0 :: 0 :: 0 :: 0 :: (junk ++ post),
        pre.length⟩ : FM).rU32?
        = some (0, ⟨.LITTLE, .OVERWRITE, pre ++ 0 :: 0 :: 0 :: 0 :: (junk ++ post),
          pre.length + 4⟩) := by
      simp only [FM.rU32?, FM.readBytes?]
      rw [if_pos (by rw [hlen]; omega)]
      rw [List.drop_left]
      simp [leNat, beNat]
    have hmv : (⟨.LITTLE, .OVERWRITE, pre ++ 0 :: 0 :: 0 :: 0 :: (junk ++ post),
        pre.length + 4⟩ : FM).movePos 8
        = some ⟨.LITTLE, .OVERWRITE, pre ++ 0 :: 0 :: 0 :: 0 :: (junk ++ post),
          pre.length + 12⟩ := by
      simp only [FM.movePos]
      rw [if_pos (by constructor <;> [omega; (rw [hlen]; push_cast; omega)])]
      congr 1
    simp only [DCT.unpackDialogLoop]
    rw [hr]
    simp only [Option.bind_eq_bind, Option.some_bind, if_pos rfl]
    rw [hmv]
    simp only [Option.some_bind]
    rcases h : DCT.unpackDialogLoop n ⟨.LITTLE, .OVERWRITE,
        pre ++ 0 :: 0 :: 0 :: 0 :: (junk ++ post), pre.length + 12⟩ with _ | p
    · rfl
    · rfl
  · rfl

theorem c5_zero_key_placeholder_witness :
    0 < demoDct.dialogEntries.length ∧ demoDct.magic.length = 4 ∧
    (DCT.pack demoDct).getD (32 + 12 * 0 + 0) 0 = 0 :=
  ⟨by decide, rfl,
    c5_zero_key_placeholder.1 demoDct 0 (by decide) rfl (by decide) rfl 0 (by decide)⟩


end EM
